import Mathlib

/-!
Verification development for the `git-branch-cleanup` CLI tool (`src/index.js`,
feature-complete variant with default-branch resolution, pre-cleanup guard and
forced-retry offer).

The JavaScript source is shallowly embedded:
* pure string processing (`getDetachedBranches` and its branch-line regex,
  `branchExists`' trim test, case folding) becomes pure Lean functions on
  `String` / `List Char`;
* every subprocess call and interactive prompt is an oracle supplied by an
  environment record (`DelEnv`, `GuardEnv`, `MainEnv`); a `none` / error value
  models a failing call, mirroring the `(err, stdout, stderr)` callbacks;
* each run produces an explicit event trace (`Ev`) recording, in order, which
  subprocesses were issued and which prompts were shown, plus the process exit
  code, so temporal claims become statements about traces.
-/

namespace GitBranchCleanup

/-- JavaScript WhiteSpace / LineTerminator characters matched by the regex
class in the source pattern (the characters that JS regex `\s` accepts). -/
def isJsSpace (c : Char) : Bool :=
  match c with
  | ' ' | '\t' | '\n' | '\u000B' | '\u000C' | '\r' | '\u00A0' | '\u1680'
  | '\u2000' | '\u2001' | '\u2002' | '\u2003' | '\u2004' | '\u2005' | '\u2006'
  | '\u2007' | '\u2008' | '\u2009' | '\u200A' | '\u2028' | '\u2029' | '\u202F'
  | '\u205F' | '\u3000' | '\uFEFF' => true
  | _ => false

/-- Complement of `isJsSpace`: the characters matched by `\S` in the source
regex. -/
def notSpace (c : Char) : Bool := !(isJsSpace c)

/-- The character class `[a-f0-9]` of the commit-hash part of the source
regex. -/
def isHexLower (c : Char) : Bool :=
  (('a' ≤ c && c ≤ 'f') || ('0' ≤ c && c ≤ '9'))

/-- JavaScript `String.prototype.startsWith` on character lists. -/
def listStartsWith : List Char → List Char → Bool
  | _, [] => true
  | [], _ :: _ => false
  | a :: as, b :: bs => a = b && listStartsWith as bs

/-- JavaScript `String.prototype.includes` (substring containment) on
character lists; used for `trackingInfo.includes('gone')` and
`stderr.includes("not fully merged")` in the source. -/
def containsSub (hay sub : List Char) : Bool :=
  match hay with
  | [] => sub.isEmpty
  | _ :: t => listStartsWith hay sub || containsSub t sub

/-- The optional tracking-info group `(\[([^\]]+)\])?` at the end of the
source regex.  Since nothing follows it in the pattern, the group matches iff
the remaining text starts with `[`, has at least one non-`]` character after
it, and a closing `]`; the captured content (`match[3]`) is the run of
non-`]` characters, because the greedy `[^\]]+` stops at the first `]`.
When the group cannot match it matches the empty string instead and
`match[3]` is `undefined` (modelled as `none`). -/
def matchBracket (s : List Char) : Option (List Char) :=
  match s with
  | '[' :: t =>
    let content := t.takeWhile (fun c => c != ']')
    if content.isEmpty then none
    else if (t.dropWhile (fun c => c != ']')).isEmpty then none
    else some content
  | _ => none

/-- The part of the source regex after the optional `\*?` marker:
`\s*(\S+)\s+[a-f0-9]+\s+(\[([^\]]+)\])?`, with JS backtracking semantics.

Each greedy quantifier here is deterministic ("maximal munch"): a shorter
match of `\s*`, `(\S+)`, `[a-f0-9]+` or `\s+` leaves a next character of the
same class, which makes the immediately following mandatory atom fail, so
backtracking those quantifiers can never rescue a failed match; and the
trailing optional bracket group always succeeds (possibly empty).  The result
is `(match[1], match[3])`: captured branch name and optional tracking info. -/
def matchRest (s : List Char) : Option (List Char × Option (List Char)) :=
  let s1 := s.dropWhile isJsSpace
  let name := s1.takeWhile notSpace
  if name.isEmpty then none else
  let s2 := s1.dropWhile notSpace
  let ws1 := s2.takeWhile isJsSpace
  if ws1.isEmpty then none else
  let s3 := s2.dropWhile isJsSpace
  let hx := s3.takeWhile isHexLower
  if hx.isEmpty then none else
  let s4 := s3.dropWhile isHexLower
  let ws2 := s4.takeWhile isJsSpace
  if ws2.isEmpty then none else
  let s5 := s4.dropWhile isJsSpace
  some (name, matchBracket s5)

/-- `line.match(branchLineRegex)` for the source pattern
`/^\*?\s*(\S+)\s+[a-f0-9]+\s+(\[([^\]]+)\])?/`, returning
`(match[1], match[3])` on success.  The pattern is anchored at the start, so
only position 0 is tried; the single remaining backtracking point is the
greedy optional `\*?`, which first consumes a leading `*` and falls back to
consuming nothing. -/
def matchBranchLine (s : List Char) : Option (List Char × Option (List Char)) :=
  match s with
  | [] => matchRest []
  | c :: t =>
    if c = '*' then
      match matchRest t with
      | some r => some r
      | none => matchRest (c :: t)
    else matchRest (c :: t)

/-- The marker substring `'gone'` tested by the source on the tracking info. -/
def goneToken : List Char := ['g', 'o', 'n', 'e']

/-- The staleness test of the source:
`!trackingInfo || trackingInfo.includes('gone')`. -/
def staleInfo : Option (List Char) → Bool
  | none => true
  | some info => containsSub info goneToken

/-- What a single line of `git branch -vv` output contributes to the stale
list: nothing if the regex does not match or tracking info is present and
lacks `'gone'`, otherwise the captured branch name. -/
def lineContrib (line : List Char) : List String :=
  match matchBranchLine line with
  | none => []
  | some (nm, tinfo) => if staleInfo tinfo then [String.mk nm] else []

/-- JavaScript `String.prototype.split('\n')`: cut at every newline, keeping
empty pieces (so `""` yields `[""]` and a trailing newline yields a final
empty piece), as `stdout.split('\n')` does in the source. -/
def splitLines : List Char → List (List Char)
  | [] => [[]]
  | c :: t =>
    match splitLines t with
    | [] => [[]]
    | l :: ls => if c = '\n' then [] :: l :: ls else (c :: l) :: ls

/-- `getDetachedBranches` from the source, as a function of the raw stdout of
`git branch -vv`: split on newlines, run the regex on each line, and collect
names whose tracking info is absent or contains `'gone'` (the `forEach`/`push`
loop is the fold). -/
def getDetachedBranches (stdout : String) : List String :=
  (splitLines stdout.toList).foldl
    (fun acc line =>
      match matchBranchLine line with
      | none => acc
      | some (nm, tinfo) => if staleInfo tinfo then acc ++ [String.mk nm] else acc) []

/-- Modelled from the spec (section 4.1): the fixed line grammar
"optional leading current-branch marker, whitespace, name token
(non-whitespace run), whitespace, hex commit id, whitespace, optional
bracketed block".  A line matches the grammar iff it decomposes into these
parts; this declarative predicate is compared with the executable matcher
`matchBranchLine` taken from the source regex. -/
def MatchesGrammar (line : List Char) : Prop :=
  ∃ star ws0 nm ws1 hx ws2 rest : List Char,
    line = star ++ ws0 ++ nm ++ ws1 ++ hx ++ ws2 ++ rest ∧
    (star = [] ∨ star = ['*']) ∧
    (∀ c ∈ ws0, isJsSpace c = true) ∧
    nm ≠ [] ∧ (∀ c ∈ nm, isJsSpace c = false) ∧
    ws1 ≠ [] ∧ (∀ c ∈ ws1, isJsSpace c = true) ∧
    hx ≠ [] ∧ (∀ c ∈ hx, isHexLower c = true) ∧
    ws2 ≠ [] ∧ (∀ c ∈ ws2, isJsSpace c = true)

/-- JavaScript `String.prototype.toLowerCase` on one character, restricted to
the ASCII range (the only range the tool's branch names and prompt answers
exercise). -/
def jsCharLower (c : Char) : Char :=
  if 'A' ≤ c && c ≤ 'Z' then Char.ofNat (c.toNat + 32) else c

/-- JavaScript `String.prototype.toLowerCase`, restricted to the ASCII
range. -/
def jsToLower (s : String) : String := String.mk (s.toList.map jsCharLower)

/-- The affirmative test used by the source on prompt answers:
`answer.toLowerCase() === 'yes' || answer.toLowerCase() === 'y'`. -/
def isYes (s : String) : Bool := jsToLower s == "yes" || jsToLower s == "y"

/-- JavaScript `String.prototype.trim` (strip JS whitespace from both ends),
used by `branchExists` on the stdout of `git branch --list`. -/
def jsTrim (s : String) : String :=
  String.mk (((s.toList.dropWhile isJsSpace).reverse.dropWhile isJsSpace).reverse)

/-- `branchExists` from the source, as a function of the result of the
`git branch --list <name>` subprocess (`none` models a failing call):
a failed call yields `false`, otherwise the trimmed stdout must be
non-empty. -/
def branchExists (res : Option String) : Bool :=
  match res with
  | none => false
  | some out => !(jsTrim out == "")

/-- The substring `"not fully merged"` tested by the source against the
stderr of a failed safe deletion. -/
def notFullyMergedToken : List Char := "not fully merged".toList

/-- Observable events of a run, in program order: prompts shown to the user
(with the answer received, `none` modelling a prompt-channel error),
resolution and listing results, informational terminal messages, and every
subprocess issued (current-branch query, branch deletion, checkout), plus
markers for each Deletion Engine invocation. -/
inductive Ev where
  | promptDefault (ans : Option String)
  | promptOption (ans : Option Nat)
  | promptSwitch (ans : Option String)
  | promptConfirm (ans : Option String)
  | promptForce (ans : Option String)
  | disclaimerShown
  | resolveDone (d : Option String)
  | listDone (bs : List String)
  | listFailed
  | info (msg : String)
  | queryCurrent (res : Option String)
  | skipCur (b : String)
  | execDel (b : String) (forced : Bool) (res : Option String)
  | runEngine (bs : List String) (forced : Bool)
  | checkout (b : String) (res : Option String)
deriving DecidableEq

/-- Environment of one Deletion Engine run: the `k`-th
`git rev-parse --abbrev-ref HEAD` result (`none` = the call errors), and the
result of the `k`-th deletion subprocess for a given branch and mode
(`none` = success, `some stderr` = failure with that stderr text). -/
structure DelEnv where
  cur : Nat → Option String
  del : Nat → String → Bool → Option String

/-- The `deleteNext` loop of `deleteBranches` in the source.  `kc` / `kd`
count the current-branch queries and deletion subprocesses already issued,
`failed` accumulates the not-fully-merged safe failures (`failedBranches` in
the source, in push order).  Returns the events of the remaining iterations
and `none` on the fatal current-branch error (the `callback(err)` path),
otherwise the final `failedBranches`. -/
def deleteBranchesGo (env : DelEnv) (forced : Bool) :
    List String → Nat → Nat → List String → List Ev × Option (List String)
  | [], _, _, failed => ([], some failed)
  | b :: rest, kc, kd, failed =>
    match env.cur kc with
    | none => ([Ev.queryCurrent none], none)
    | some c =>
      if b = c then
        let r := deleteBranchesGo env forced rest (kc + 1) kd failed
        (Ev.queryCurrent (some c) :: Ev.skipCur b :: r.1, r.2)
      else
        match env.del kd b forced with
        | none =>
          let r := deleteBranchesGo env forced rest (kc + 1) (kd + 1) failed
          (Ev.queryCurrent (some c) :: Ev.execDel b forced none :: r.1, r.2)
        | some stderr =>
          let failed' :=
            if !forced && containsSub stderr.toList notFullyMergedToken
            then failed ++ [b] else failed
          let r := deleteBranchesGo env forced rest (kc + 1) (kd + 1) failed'
          (Ev.queryCurrent (some c) :: Ev.execDel b forced (some stderr) :: r.1, r.2)

/-- `deleteBranches(branches, forced, callback)` from the source: run the
`deleteNext` loop from the start with an empty `failedBranches` list. -/
def deleteBranches (env : DelEnv) (forced : Bool) (branches : List String) :
    List Ev × Option (List String) :=
  deleteBranchesGo env forced branches 0 0 []

/-- Environment of one `preCleanupCheck` call: the current-branch query
result, the answer to the switch prompt (`none` = prompt error), and the
result of the `git checkout` subprocess (`none` = success). -/
structure GuardEnv where
  cur : Option String
  switchAns : Option String
  checkoutRes : Option String

/-- `preCleanupCheck(branchesToDelete, defaultMain, callback)` from the
source.  Returns the events issued and `none` on the error paths
(current-branch failure, prompt failure, checkout failure), otherwise the
adjusted deletion list. -/
def preCleanupCheck (g : GuardEnv) (branchesToDelete : List String)
    (defaultMain : Option String) : List Ev × Option (List String) :=
  match defaultMain with
  | none => ([], some branchesToDelete)
  | some d =>
    match g.cur with
    | none => ([Ev.queryCurrent none], none)
    | some c =>
      if jsToLower c == jsToLower d then
        ([Ev.queryCurrent (some c)], some branchesToDelete)
      else
        match g.switchAns with
        | none => ([Ev.queryCurrent (some c), Ev.promptSwitch none], none)
        | some a =>
          if isYes a then
            match g.checkoutRes with
            | none =>
              ([Ev.queryCurrent (some c), Ev.promptSwitch (some a), Ev.checkout d none],
               some branchesToDelete)
            | some e =>
              ([Ev.queryCurrent (some c), Ev.promptSwitch (some a), Ev.checkout d (some e)],
               none)
          else
            ([Ev.queryCurrent (some c), Ev.promptSwitch (some a)],
             some (branchesToDelete.filter (fun b => !(jsToLower b == jsToLower c))))

/-- `confirmDisclaimer(callback)` from the source, with the process-wide
`disclaimerConfirmed` flag made explicit.  Result: `none` = prompt error
(exit 1), `some true` = proceed, `some false` = user declined (exit 0). -/
def confirmDisclaimer (confirmed : Bool) (ans : Option String) :
    List Ev × Option Bool :=
  if confirmed then ([], some true)
  else
    match ans with
    | none => ([Ev.disclaimerShown, Ev.promptConfirm none], none)
    | some a =>
      if isYes a then ([Ev.disclaimerShown, Ev.promptConfirm (some a)], some true)
      else ([Ev.disclaimerShown, Ev.promptConfirm (some a)], some false)

/-- `getDefaultMainBranch(callback)` from the source, as a function of the
two `git branch --list` results and the disambiguation prompt answer.
Returns the events issued and `none` on prompt error, otherwise the resolved
default (`some none` = neither name exists). -/
def getDefaultMainBranch (mainRes masterRes : Option String)
    (choice : Option String) : List Ev × Option (Option String) :=
  if branchExists mainRes && branchExists masterRes then
    match choice with
    | none => ([Ev.promptDefault none], none)
    | some s => ([Ev.promptDefault (some s)], some (some (jsToLower s)))
  else if branchExists mainRes then ([], some (some "main"))
  else if branchExists masterRes then ([], some (some "master"))
  else ([], some none)

/-- The informational message of the zero-stale-branches exit. -/
def msgNoStale : String :=
  "No local branches with missing or gone upstreams were found."

/-- The informational message of the empty-after-option-3-filter exit. -/
def msgNoneAfterFilter (d : String) : String :=
  "No branches available to delete after filtering out \x27" ++ d ++ "\x27."

/-- The informational message of the empty-after-guard exit. -/
def msgNoneAfterGuard : String :=
  "No branches available to delete after pre-cleanup adjustments."

/-- The option-3 filtering of the source (`option === 3 && defaultMain`):
drop the resolved default name, case-insensitively. -/
def optFilter (opt : Nat) (dfl : Option String) (bs : List String) : List String :=
  match dfl with
  | some d => if opt = 3 then bs.filter (fun b => !(jsToLower b == jsToLower d)) else bs
  | none => bs

/-- Environment of one `main()` run: the repository marker, the oracle
results of every subprocess, and every prompt answer, in the order the
source can issue them (`del1` feeds the first Deletion Engine pass, `del2`
the forced-retry pass). -/
structure MainEnv where
  isRepo : Bool
  mainRes : Option String
  masterRes : Option String
  defaultChoice : Option String
  listOut : Option String
  optionAns : Option Nat
  guard : GuardEnv
  confirmAns : Option String
  del1 : DelEnv
  forceAns : Option String
  del2 : DelEnv

/-- The deletion block of `main()` after the disclaimer is affirmed: safe
pass plus forced-retry offer for options 1 and 3, immediate forced pass for
option 2.  Returns the events and the exit code. -/
def delPhase (env : MainEnv) (opt : Nat) (final : List String) : List Ev × Nat :=
  if opt = 2 then
    let r := deleteBranches env.del1 true final
    (Ev.runEngine final true :: r.1, match r.2 with | none => 1 | some _ => 0)
  else if opt = 1 || opt = 3 then
    let r := deleteBranches env.del1 false final
    match r.2 with
    | none => (Ev.runEngine final false :: r.1, 1)
    | some failed =>
      if failed.isEmpty then (Ev.runEngine final false :: r.1, 0)
      else
        match env.forceAns with
        | none => (Ev.runEngine final false :: r.1 ++ [Ev.promptForce none], 1)
        | some a =>
          if isYes a then
            let r2 := deleteBranches env.del2 true failed
            (Ev.runEngine final false :: r.1 ++
               Ev.promptForce (some a) :: Ev.runEngine failed true :: r2.1,
             match r2.2 with | none => 1 | some _ => 0)
          else
            (Ev.runEngine final false :: r.1 ++ [Ev.promptForce (some a)], 0)
  else ([], 0)

/-- `main()` after the pre-cleanup check returned the final deletion list:
empty-list early exit, then the one-time disclaimer, then the deletion
block. -/
def mainAfterGuard (env : MainEnv) (opt : Nat) (final : List String) :
    List Ev × Nat :=
  if final.isEmpty then ([Ev.info msgNoneAfterGuard], 0)
  else
    let c := confirmDisclaimer false env.confirmAns
    match c.2 with
    | none => (c.1, 1)
    | some false => (c.1, 0)
    | some true =>
      let d := delPhase env opt final
      (c.1 ++ d.1, d.2)

/-- `main()` after a cleanup option other than Cancel was chosen: option-3
filtering with its empty-list exit, then the pre-cleanup check, then the
disclaimer and deletion block. -/
def mainWithOption (env : MainEnv) (dfl : Option String) (bs : List String)
    (opt : Nat) : List Ev × Nat :=
  let btd := optFilter opt dfl bs
  if opt = 3 && dfl.isSome && btd.isEmpty then
    ([Ev.info (msgNoneAfterFilter (dfl.getD ""))], 0)
  else
    let g := preCleanupCheck env.guard btd dfl
    match g.2 with
    | none => (g.1, 1)
    | some final =>
      let m := mainAfterGuard env opt final
      (g.1 ++ m.1, m.2)

/-- `main()` from the source: repository check, default-branch resolution,
stale-branch listing with the zero-stale exit, option menu, then
`mainWithOption`.  Returns the full event trace and the process exit
code. -/
def mainRun (env : MainEnv) : List Ev × Nat :=
  if !env.isRepo then ([], 1)
  else
    let r := getDefaultMainBranch env.mainRes env.masterRes env.defaultChoice
    match r.2 with
    | none => (r.1, 1)
    | some dfl =>
      match env.listOut with
      | none => (r.1 ++ [Ev.resolveDone dfl, Ev.listFailed], 1)
      | some out =>
        let bs := getDetachedBranches out
        if bs.isEmpty then
          (r.1 ++ [Ev.resolveDone dfl, Ev.listDone bs, Ev.info msgNoStale], 0)
        else
          match env.optionAns with
          | none => (r.1 ++ [Ev.resolveDone dfl, Ev.listDone bs, Ev.promptOption none], 1)
          | some opt =>
            if opt = 4 then
              (r.1 ++ [Ev.resolveDone dfl, Ev.listDone bs, Ev.promptOption (some opt)], 0)
            else
              let m := mainWithOption env dfl bs opt
              (r.1 ++ Ev.resolveDone dfl :: Ev.listDone bs ::
                 Ev.promptOption (some opt) :: m.1, m.2)

/-- Extracts from a Deletion Engine event the branch recorded as a
recoverable FAILED_UNMERGED outcome: a safe-mode deletion subprocess whose
failure text contains the not-fully-merged marker. -/
def unmergedOf : Ev → Option String
  | Ev.execDel b false (some stderr) =>
    if containsSub stderr.toList notFullyMergedToken then some b else none
  | _ => none

/-- Shape of a Deletion Engine trace: every deletion subprocess is
immediately preceded by a current-branch query returning a different name,
and a query returning the processed name itself is immediately followed by a
skip of that name instead of a subprocess. -/
inductive TraceOK : List Ev → Prop where
  | nil : TraceOK []
  | fatal : TraceOK [Ev.queryCurrent none]
  | skip (b : String) (rest : List Ev) : TraceOK rest →
      TraceOK (Ev.queryCurrent (some b) :: Ev.skipCur b :: rest)
  | exec (b c : String) (f : Bool) (r : Option String) (rest : List Ev) :
      b ≠ c → TraceOK rest →
      TraceOK (Ev.queryCurrent (some c) :: Ev.execDel b f r :: rest)

/-- Concrete Deletion Engine environment: checked-out branch is `work`, every
deletion subprocess succeeds. -/
def delEnvW : DelEnv := { cur := fun _ => some "work", del := fun _ _ _ => none }

/-- Concrete Deletion Engine environment: the first deletion subprocess fails
with a non-unmerged error, the second succeeds. -/
def delEnvC : DelEnv :=
  { cur := fun _ => some "main",
    del := fun k _ _ => if k = 0 then some "permission denied" else none }

/-- Concrete Deletion Engine environment: checked-out branch is `main`, every
deletion succeeds. -/
def delEnvM : DelEnv := { cur := fun _ => some "main", del := fun _ _ _ => none }

/-- Concrete Guard environment: current branch `main`, user answers `no` to
the switch prompt. -/
def guardEnvW : GuardEnv :=
  { cur := some "main", switchAns := some "no", checkoutRes := none }

/-- Events a Deletion Engine run can emit. -/
def engineEv : Ev → Bool
  | Ev.queryCurrent _ => true
  | Ev.skipCur _ => true
  | Ev.execDel _ _ _ => true
  | _ => false

/-- Events a `preCleanupCheck` call can emit. -/
def guardEv : Ev → Bool
  | Ev.queryCurrent _ => true
  | Ev.promptSwitch _ => true
  | Ev.checkout _ _ => true
  | _ => false

/-- Spine events of `main()` between resolution and the guard. -/
def midEv : Ev → Bool
  | Ev.resolveDone _ => true
  | Ev.listDone _ => true
  | Ev.listFailed => true
  | Ev.promptOption _ => true
  | Ev.info _ => true
  | _ => false

/-- Events the deletion block of `main()` can emit. -/
def delPhaseEv : Ev → Bool
  | Ev.queryCurrent _ => true
  | Ev.skipCur _ => true
  | Ev.execDel _ _ _ => true
  | Ev.runEngine _ _ => true
  | Ev.promptForce _ => true
  | _ => false

/-- The default-branch disambiguation prompt events. -/
def isPromptDefaultEv : Ev → Bool
  | Ev.promptDefault _ => true
  | _ => false

/-- Interactive prompt events of any kind. -/
def isPromptEv : Ev → Bool
  | Ev.promptDefault _ => true
  | Ev.promptOption _ => true
  | Ev.promptSwitch _ => true
  | Ev.promptConfirm _ => true
  | Ev.promptForce _ => true
  | _ => false

/-- A safe-deletion stderr text carrying the not-fully-merged marker. -/
def stderrUnmerged : String := "error: the branch \x27feat1\x27 is not fully merged."

/-- Full-pipeline environment: one stale branch `feat1`, safe pass fails as
not fully merged, user affirms the forced retry, forced pass succeeds. -/
def envRetryYes : MainEnv :=
  { isRepo := true
    mainRes := some "  main\n"
    masterRes := none
    defaultChoice := some "main"
    listOut := some "* main 1a2b3c4 [origin/main] ok\n  feat1 abc123 [origin/feat1: gone] m\n"
    optionAns := some 1
    guard := { cur := some "main", switchAns := some "no", checkoutRes := none }
    confirmAns := some "y"
    del1 := { cur := fun _ => some "main", del := fun _ _ _ => some stderrUnmerged }
    forceAns := some "yes"
    del2 := { cur := fun _ => some "main", del := fun _ _ _ => none } }

/-- Like `envRetryYes` but the user declines the forced retry. -/
def envRetryNo : MainEnv := { envRetryYes with forceAns := some "no" }

/-- Like `envRetryYes` but the user declines the disclaimer. -/
def envDecline : MainEnv := { envRetryYes with confirmAns := some "no" }

/-- Guard environment for the stay choice: current branch `beta`, user
answers `no` to the switch prompt. -/
def guardStayW : GuardEnv :=
  { cur := some "beta", switchAns := some "no", checkoutRes := none }

/-- The events `envRetryYes` produces before its first deletion subprocess. -/
def c3preW : List Ev :=
  [Ev.resolveDone (some "main"), Ev.listDone ["feat1"], Ev.promptOption (some 1),
   Ev.queryCurrent (some "main"), Ev.disclaimerShown, Ev.promptConfirm (some "y"),
   Ev.runEngine ["feat1"] false, Ev.queryCurrent (some "main")]

/-- The events `envRetryYes` produces after its first deletion subprocess. -/
def c3sufW : List Ev :=
  [Ev.promptForce (some "yes"), Ev.runEngine ["feat1"] true,
   Ev.queryCurrent (some "main"), Ev.execDel "feat1" true none]

/-- Environment with both `main` and `master` present and zero stale
branches: the disambiguation prompt fires before listing. -/
def envBothZero : MainEnv :=
  { envRetryYes with masterRes := some "  master\n", listOut := some "" }

/-- Environment with a single protected name and zero stale branches. -/
def envOneZero : MainEnv := { envRetryYes with listOut := some "" }

/-- Environment where option 3 filters the only stale branch (the default)
away, so the run exits before the guard. -/
def envFilterEmpty : MainEnv :=
  { envRetryYes with
    listOut := some "* main abc123 [origin/main: gone] m\n"
    optionAns := some 3 }

/-- Environment where the guard's stay answer removes the only candidate, so
the run exits after the guard with nothing to delete. -/
def envGuardEmpty : MainEnv :=
  { envRetryYes with
    guard := { cur := some "feat1", switchAns := some "no", checkoutRes := none } }

/-- Environment where the user asks to switch to the default branch and the
checkout subprocess fails. -/
def envCheckoutFail : MainEnv :=
  { envRetryYes with
    guard := { cur := some "dev", switchAns := some "yes",
               checkoutRes := some "error: pathspec" } }

/-! ### List and character-class helper lemmas -/

theorem takeWhile_append_all {p : Char → Bool} {a : List Char} (b : List Char)
    (h : ∀ c ∈ a, p c = true) : (a ++ b).takeWhile p = a ++ b.takeWhile p := by
  induction a with
  | nil => simp
  | cons x xs ih =>
    have hx : p x = true := h x (by simp)
    simp only [List.cons_append, List.takeWhile_cons, hx, if_true]
    rw [ih (fun c hc => h c (by simp [hc]))]

theorem dropWhile_append_all {p : Char → Bool} {a : List Char} (b : List Char)
    (h : ∀ c ∈ a, p c = true) : (a ++ b).dropWhile p = b.dropWhile p := by
  induction a with
  | nil => simp
  | cons x xs ih =>
    have hx : p x = true := h x (by simp)
    simp only [List.cons_append, List.dropWhile_cons, hx, if_true]
    exact ih (fun c hc => h c (by simp [hc]))

theorem takeWhile_cons_false {p : Char → Bool} {x : Char} (xs : List Char)
    (h : p x = false) : (x :: xs).takeWhile p = [] := by
  simp [List.takeWhile_cons, h]

theorem dropWhile_cons_false {p : Char → Bool} {x : Char} (xs : List Char)
    (h : p x = false) : (x :: xs).dropWhile p = x :: xs := by
  simp [List.dropWhile_cons, h]

theorem takeDrop_split (p : Char → Bool) (l : List Char) :
    l = l.takeWhile p ++ l.dropWhile p :=
  (List.takeWhile_append_dropWhile p l).symm

theorem isHexLower_not_isJsSpace {c : Char} (h : isHexLower c = true) :
    isJsSpace c = false := by
  unfold isJsSpace
  split
  all_goals first
  | rfl
  | (exfalso; revert h; decide)

theorem isJsSpace_not_isHexLower {c : Char} (h : isJsSpace c = true) :
    isHexLower c = false := by
  by_contra hb
  have hx : isHexLower c = true := by
    cases hx : isHexLower c
    · exact absurd hx hb
    · rfl
  rw [isHexLower_not_isJsSpace hx] at h
  cases h

theorem isJsSpace_ne_star {c : Char} (h : isJsSpace c = true) : c ≠ '*' := by
  intro hc
  subst hc
  revert h
  decide

/-! ### The branch-line matcher agrees with the spec grammar -/

theorem matchRest_grammar {s : List Char} {nm : List Char} {ti : Option (List Char)}
    (h : matchRest s = some (nm, ti)) :
    ∃ ws0 ws1 hx ws2 rest : List Char,
      s = ws0 ++ nm ++ ws1 ++ hx ++ ws2 ++ rest ∧
      (∀ c ∈ ws0, isJsSpace c = true) ∧
      nm ≠ [] ∧ (∀ c ∈ nm, isJsSpace c = false) ∧
      ws1 ≠ [] ∧ (∀ c ∈ ws1, isJsSpace c = true) ∧
      hx ≠ [] ∧ (∀ c ∈ hx, isHexLower c = true) ∧
      ws2 ≠ [] ∧ (∀ c ∈ ws2, isJsSpace c = true) := by
  simp only [matchRest] at h
  cases h1 : ((s.dropWhile isJsSpace).takeWhile notSpace).isEmpty <;> simp only [h1] at h
  case true => simp at h
  cases h2 : (((s.dropWhile isJsSpace).dropWhile notSpace).takeWhile isJsSpace).isEmpty <;>
    simp only [h2] at h
  case true => simp at h
  cases h3 : ((((s.dropWhile isJsSpace).dropWhile notSpace).dropWhile isJsSpace).takeWhile
      isHexLower).isEmpty <;> simp only [h3] at h
  case true => simp at h
  cases h4 : (((((s.dropWhile isJsSpace).dropWhile notSpace).dropWhile
      isJsSpace).dropWhile isHexLower).takeWhile isJsSpace).isEmpty <;> simp only [h4] at h
  case true => simp at h
  simp at h
  obtain ⟨hnm, hti⟩ := h
  refine ⟨s.takeWhile isJsSpace,
    ((s.dropWhile isJsSpace).dropWhile notSpace).takeWhile isJsSpace,
    (((s.dropWhile isJsSpace).dropWhile notSpace).dropWhile isJsSpace).takeWhile isHexLower,
    ((((s.dropWhile isJsSpace).dropWhile notSpace).dropWhile isJsSpace).dropWhile
      isHexLower).takeWhile isJsSpace,
    ((((s.dropWhile isJsSpace).dropWhile notSpace).dropWhile isJsSpace).dropWhile
      isHexLower).dropWhile isJsSpace, ?_, ?_, ?_, ?_, ?_, ?_, ?_, ?_, ?_, ?_⟩
  · subst hnm
    simp only [List.append_assoc]
    nth_rewrite 1 [takeDrop_split isJsSpace s]
    refine congrArg (fun z => s.takeWhile isJsSpace ++ z) ?_
    nth_rewrite 1 [takeDrop_split notSpace (s.dropWhile isJsSpace)]
    refine congrArg (fun z => (s.dropWhile isJsSpace).takeWhile notSpace ++ z) ?_
    nth_rewrite 1 [takeDrop_split isJsSpace ((s.dropWhile isJsSpace).dropWhile notSpace)]
    refine congrArg
      (fun z => ((s.dropWhile isJsSpace).dropWhile notSpace).takeWhile isJsSpace ++ z) ?_
    nth_rewrite 1 [takeDrop_split isHexLower
      (((s.dropWhile isJsSpace).dropWhile notSpace).dropWhile isJsSpace)]
    refine congrArg (fun z => (((s.dropWhile isJsSpace).dropWhile
      notSpace).dropWhile isJsSpace).takeWhile isHexLower ++ z) ?_
    exact takeDrop_split isJsSpace ((((s.dropWhile isJsSpace).dropWhile
      notSpace).dropWhile isJsSpace).dropWhile isHexLower)
  · exact fun c hc => List.mem_takeWhile_imp hc
  · subst hnm
    simpa using h1
  · intro c hc
    subst hnm
    have := List.mem_takeWhile_imp hc
    simpa [notSpace] using this
  · simpa using h2
  · exact fun c hc => List.mem_takeWhile_imp hc
  · simpa using h3
  · exact fun c hc => List.mem_takeWhile_imp hc
  · simpa using h4
  · exact fun c hc => List.mem_takeWhile_imp hc

theorem matchBranchLine_grammar {line : List Char} {r : List Char × Option (List Char)}
    (h : matchBranchLine line = some r) : MatchesGrammar line := by
  obtain ⟨nm, ti⟩ := r
  cases line with
  | nil =>
    simp [matchBranchLine, matchRest] at h
  | cons c t =>
    simp only [matchBranchLine] at h
    by_cases hc : c = '*'
    · rw [if_pos hc] at h
      cases hmr : matchRest t with
      | some r' =>
        rw [hmr] at h
        obtain ⟨nm', ti'⟩ := r'
        obtain ⟨ws0, ws1, hx, ws2, rest, heq, hp⟩ := matchRest_grammar hmr
        exact ⟨['*'], ws0, nm', ws1, hx, ws2, rest, by simp [hc, heq], Or.inr rfl, hp.1,
          hp.2.1, hp.2.2.1, hp.2.2.2.1, hp.2.2.2.2.1, hp.2.2.2.2.2.1, hp.2.2.2.2.2.2.1,
          hp.2.2.2.2.2.2.2.1, hp.2.2.2.2.2.2.2.2⟩
      | none =>
        rw [hmr] at h
        obtain ⟨ws0, ws1, hx, ws2, rest, heq, hp⟩ := matchRest_grammar h
        exact ⟨[], ws0, nm, ws1, hx, ws2, rest, by simpa using heq, Or.inl rfl, hp.1,
          hp.2.1, hp.2.2.1, hp.2.2.2.1, hp.2.2.2.2.1, hp.2.2.2.2.2.1, hp.2.2.2.2.2.2.1,
          hp.2.2.2.2.2.2.2.1, hp.2.2.2.2.2.2.2.2⟩
    · rw [if_neg hc] at h
      obtain ⟨ws0, ws1, hx, ws2, rest, heq, hp⟩ := matchRest_grammar h
      exact ⟨[], ws0, nm, ws1, hx, ws2, rest, by simpa using heq, Or.inl rfl, hp.1,
        hp.2.1, hp.2.2.1, hp.2.2.2.1, hp.2.2.2.2.1, hp.2.2.2.2.2.1, hp.2.2.2.2.2.2.1,
        hp.2.2.2.2.2.2.2.1, hp.2.2.2.2.2.2.2.2⟩

theorem matchRest_isSome_parts {ws0 nm ws1 hx ws2 : List Char} (rest : List Char)
    (hws0 : ∀ c ∈ ws0, isJsSpace c = true)
    (hnm : nm ≠ []) (hnmP : ∀ c ∈ nm, isJsSpace c = false)
    (hws1 : ws1 ≠ []) (hws1P : ∀ c ∈ ws1, isJsSpace c = true)
    (hhx : hx ≠ []) (hhxP : ∀ c ∈ hx, isHexLower c = true)
    (hws2 : ws2 ≠ []) (hws2P : ∀ c ∈ ws2, isJsSpace c = true) :
    (matchRest (ws0 ++ nm ++ ws1 ++ hx ++ ws2 ++ rest)).isSome = true := by
  obtain ⟨n0, nm', rfl⟩ := List.exists_cons_of_ne_nil hnm
  obtain ⟨w0, ws1', rfl⟩ := List.exists_cons_of_ne_nil hws1
  obtain ⟨x0, hx', rfl⟩ := List.exists_cons_of_ne_nil hhx
  obtain ⟨w2, ws2', rfl⟩ := List.exists_cons_of_ne_nil hws2
  have hn0 : isJsSpace n0 = false := hnmP n0 (by simp)
  have hn0' : notSpace n0 = true := by simp [notSpace, hn0]
  have hnmP' : ∀ c ∈ nm', notSpace c = true :=
    fun c hc => by simp [notSpace, hnmP c (by simp [hc])]
  have hw0 : isJsSpace w0 = true := hws1P w0 (by simp)
  have hw0n : notSpace w0 = false := by simp [notSpace, hw0]
  have hws1P' : ∀ c ∈ ws1', isJsSpace c = true := fun c hc => hws1P c (by simp [hc])
  have hx0 : isHexLower x0 = true := hhxP x0 (by simp)
  have hx0s : isJsSpace x0 = false := isHexLower_not_isJsSpace hx0
  have hhxP' : ∀ c ∈ hx', isHexLower c = true := fun c hc => hhxP c (by simp [hc])
  have hw2 : isJsSpace w2 = true := hws2P w2 (by simp)
  have hw2x : isHexLower w2 = false := isJsSpace_not_isHexLower hw2
  have R1 : ∀ b, (ws0 ++ b).dropWhile isJsSpace = b.dropWhile isJsSpace :=
    fun b => dropWhile_append_all b hws0
  have R2 : ∀ b, (nm' ++ b).takeWhile notSpace = nm' ++ b.takeWhile notSpace :=
    fun b => takeWhile_append_all b hnmP'
  have R3 : ∀ b, (nm' ++ b).dropWhile notSpace = b.dropWhile notSpace :=
    fun b => dropWhile_append_all b hnmP'
  have R4 : ∀ b, (ws1' ++ b).takeWhile isJsSpace = ws1' ++ b.takeWhile isJsSpace :=
    fun b => takeWhile_append_all b hws1P'
  have R5 : ∀ b, (ws1' ++ b).dropWhile isJsSpace = b.dropWhile isJsSpace :=
    fun b => dropWhile_append_all b hws1P'
  have R6 : ∀ b, (hx' ++ b).takeWhile isHexLower = hx' ++ b.takeWhile isHexLower :=
    fun b => takeWhile_append_all b hhxP'
  have R7 : ∀ b, (hx' ++ b).dropWhile isHexLower = b.dropWhile isHexLower :=
    fun b => dropWhile_append_all b hhxP'
  simp [matchRest, List.cons_append, R1, R2, R3, R4, R5, R6, R7,
    List.takeWhile_cons, List.dropWhile_cons, hn0, hn0', hw0, hw0n, hx0, hx0s, hw2, hw2x]

theorem matchBranchLine_isSome_of_grammar {line : List Char} (h : MatchesGrammar line) :
    (matchBranchLine line).isSome = true := by
  obtain ⟨star, ws0, nm, ws1, hx, ws2, rest, heq, hstar, hws0, hnm, hnmP, hws1, hws1P,
    hhx, hhxP, hws2, hws2P⟩ := h
  have hcore : (matchRest (ws0 ++ nm ++ ws1 ++ hx ++ ws2 ++ rest)).isSome = true :=
    matchRest_isSome_parts rest hws0 hnm hnmP hws1 hws1P hhx hhxP hws2 hws2P
  cases hstar with
  | inr hstar =>
    subst hstar
    subst heq
    simp only [List.cons_append, List.nil_append, matchBranchLine, if_pos rfl]
    cases hmr : matchRest (ws0 ++ nm ++ ws1 ++ hx ++ ws2 ++ rest) with
    | some r => simp
    | none =>
      rw [hmr] at hcore
      simp at hcore
  | inl hstar =>
    subst hstar
    simp only [List.nil_append] at heq
    subst heq
    cases hws0case : ws0 with
    | cons w ws0' =>
      have hw : isJsSpace w = true := hws0 w (by simp [hws0case])
      have hwne : w ≠ '*' := isJsSpace_ne_star hw
      subst hws0case
      simp only [List.cons_append, matchBranchLine, if_neg hwne]
      simpa [List.cons_append] using hcore
    | nil =>
      subst hws0case
      simp only [List.nil_append] at hcore ⊢
      obtain ⟨n0, nm', rfl⟩ := List.exists_cons_of_ne_nil hnm
      by_cases hn0 : n0 = '*'
      · subst hn0
        simp only [List.cons_append, matchBranchLine, if_pos rfl]
        cases hmr : matchRest (nm' ++ ws1 ++ hx ++ ws2 ++ rest) with
        | some r => simp
        | none => simpa [List.cons_append] using hcore
      · simp only [List.cons_append, matchBranchLine, if_neg hn0]
        simpa [List.cons_append] using hcore

theorem getDetachedBranches_foldl (ls : List (List Char)) (acc : List String) :
    ls.foldl (fun acc line =>
      match matchBranchLine line with
      | none => acc
      | some (nm, tinfo) => if staleInfo tinfo then acc ++ [String.mk nm] else acc) acc
    = acc ++ (ls.map lineContrib).flatten := by
  induction ls generalizing acc with
  | nil => simp
  | cons l ls ih =>
    rw [List.foldl_cons, ih]
    simp only [List.map_cons, List.flatten_cons]
    unfold lineContrib
    cases hm : matchBranchLine l with
    | none => simp
    | some r =>
      obtain ⟨nm, ti⟩ := r
      cases hst : staleInfo ti <;> simp [hst, List.append_assoc]

theorem getDetachedBranches_eq (out : String) :
    getDetachedBranches out = ((splitLines out.toList).map lineContrib).flatten := by
  unfold getDetachedBranches
  rw [getDetachedBranches_foldl]
  simp

/-- C2: a branch-listing line matching the fixed grammar with no bracketed
block is classified stale; a matching line whose bracketed block contains
`gone` is classified stale regardless of other content; a matching line whose
bracketed block lacks `gone` is never classified stale; a line not matching
the grammar (blank lines, the detached-HEAD marker line) is silently skipped
and contributes no branch.  The executable matcher agrees exactly with the
declarative grammar, and `getDetachedBranches` is the per-line classification
applied to every line of the listing output. -/
theorem c2_stale_classification :
    (∀ out : String,
       getDetachedBranches out = ((splitLines out.toList).map lineContrib).flatten) ∧
    (∀ line : List Char, matchBranchLine line = none → lineContrib line = []) ∧
    (∀ line nm, matchBranchLine line = some (nm, none) → lineContrib line = [String.mk nm]) ∧
    (∀ line nm info, matchBranchLine line = some (nm, some info) →
       lineContrib line = if containsSub info goneToken then [String.mk nm] else []) ∧
    (∀ line : List Char, (matchBranchLine line).isSome = true ↔ MatchesGrammar line) ∧
    matchBranchLine [] = none ∧
    matchBranchLine ("* (HEAD detached at 1a2b3c4) 1a2b3c4 message".toList) = none := by
  refine ⟨getDetachedBranches_eq, ?_, ?_, ?_, ?_, by decide, by decide⟩
  · intro line h
    simp [lineContrib, h]
  · intro line nm h
    simp [lineContrib, h, staleInfo]
  · intro line nm info h
    simp [lineContrib, h, staleInfo]
  · intro line
    constructor
    · intro h
      cases hm : matchBranchLine line with
      | none => rw [hm] at h; cases h
      | some r => exact matchBranchLine_grammar hm
    · exact matchBranchLine_isSome_of_grammar

/-- Witness for C2 at concrete listing lines: a line with no bracketed block
is stale, a line whose bracket contains `gone` is stale, a line whose bracket
lacks `gone` is skipped, and a line without tracking info satisfies the
declarative grammar. -/
theorem c2_stale_classification_witness :
    lineContrib ("  bugfix 5d6e7f8 msg".toList) = ["bugfix"] ∧
    lineContrib ("  oldfeat 9a8b7c6 [origin/oldfeat: gone] m".toList) = ["oldfeat"] ∧
    lineContrib ("* feature 1a2b3c4 [origin/feature] msg".toList) = [] ∧
    MatchesGrammar ("  bugfix 5d6e7f8 msg".toList) := by
  refine ⟨?_, ?_, ?_, ?_⟩
  · have h := c2_stale_classification.2.2.1 ("  bugfix 5d6e7f8 msg".toList)
      ("bugfix".toList) (by decide)
    simpa using h
  · have h := c2_stale_classification.2.2.2.1 ("  oldfeat 9a8b7c6 [origin/oldfeat: gone] m".toList)
      ("oldfeat".toList) ("origin/oldfeat: gone".toList) (by decide)
    simpa using h
  · have h := c2_stale_classification.2.2.2.1 ("* feature 1a2b3c4 [origin/feature] msg".toList)
      ("feature".toList) ("origin/feature".toList) (by decide)
    simpa using h
  · exact (c2_stale_classification.2.2.2.2.1 ("  bugfix 5d6e7f8 msg".toList)).mp (by decide)

/-! ### Deletion Engine lemmas -/

theorem deleteBranchesGo_traceOK (env : DelEnv) (forced : Bool) :
    ∀ (bs : List String) (kc kd : Nat) (acc : List String),
      TraceOK (deleteBranchesGo env forced bs kc kd acc).1 := by
  intro bs
  induction bs with
  | nil => intro kc kd acc; exact TraceOK.nil
  | cons b rest ih =>
    intro kc kd acc
    simp only [deleteBranchesGo]
    cases hc : env.cur kc with
    | none => exact TraceOK.fatal
    | some c =>
      by_cases hbc : b = c
      · subst hbc
        simp only [if_pos rfl]
        exact TraceOK.skip b _ (ih _ _ _)
      · simp only [if_neg hbc]
        cases hd : env.del kd b forced with
        | none => exact TraceOK.exec b c forced none _ hbc (ih _ _ _)
        | some stderr => exact TraceOK.exec b c forced (some stderr) _ hbc (ih _ _ _)

theorem traceOK_exec_ne {t : List Ev} (h : TraceOK t) :
    ∀ (p s : List Ev) (b c : String) (f : Bool) (r : Option String),
      t = p ++ Ev.queryCurrent (some c) :: Ev.execDel b f r :: s → b ≠ c := by
  induction h with
  | nil =>
    intro p s b c f r hp
    simp at hp
  | fatal =>
    intro p s b c f r hp
    rcases p with _ | ⟨x, p⟩
    · simp at hp
    · rcases p with _ | ⟨y, p⟩ <;> simp at hp
  | skip b' rest hr ih =>
    intro p s b c f r hp
    rcases p with _ | ⟨x, p⟩
    · simp at hp
    · rcases p with _ | ⟨y, p⟩
      · simp at hp
      · simp only [List.cons_append, List.cons.injEq] at hp
        exact ih p s b c f r hp.2.2
  | exec b' c' f' r' rest hne hr ih =>
    intro p s b c f r hp
    rcases p with _ | ⟨x, p⟩
    · simp only [List.nil_append, List.cons.injEq, Ev.queryCurrent.injEq,
        Ev.execDel.injEq, Option.some.injEq] at hp
      obtain ⟨hc', ⟨hb', _, _⟩, _⟩ := hp
      subst hc'
      subst hb'
      exact hne
    · rcases p with _ | ⟨y, p⟩
      · simp at hp
      · simp only [List.cons_append, List.cons.injEq] at hp
        exact ih p s b c f r hp.2.2

theorem traceOK_skip_eq {t : List Ev} (h : TraceOK t) :
    ∀ (p s : List Ev) (b c : String),
      t = p ++ Ev.queryCurrent (some c) :: Ev.skipCur b :: s → b = c := by
  induction h with
  | nil =>
    intro p s b c hp
    simp at hp
  | fatal =>
    intro p s b c hp
    rcases p with _ | ⟨x, p⟩
    · simp at hp
    · rcases p with _ | ⟨y, p⟩ <;> simp at hp
  | skip b' rest hr ih =>
    intro p s b c hp
    rcases p with _ | ⟨x, p⟩
    · simp only [List.nil_append, List.cons.injEq, Ev.queryCurrent.injEq,
        Ev.skipCur.injEq, Option.some.injEq] at hp
      obtain ⟨hc', hb', _⟩ := hp
      subst hc'
      subst hb'
      rfl
    · rcases p with _ | ⟨y, p⟩
      · simp at hp
      · simp only [List.cons_append, List.cons.injEq] at hp
        exact ih p s b c hp.2.2
  | exec b' c' f' r' rest hne hr ih =>
    intro p s b c hp
    rcases p with _ | ⟨x, p⟩
    · simp at hp
    · rcases p with _ | ⟨y, p⟩
      · simp at hp
      · simp only [List.cons_append, List.cons.injEq] at hp
        exact ih p s b c hp.2.2

/-- C1: for every Deletion Engine run and every position in the batch, the
engine re-reads the current checked-out branch immediately before acting on
that name; if the name equals the current branch it records a skip and issues
no deletion subprocess for it, in both SAFE and FORCED modes, so every issued
deletion subprocess targets a name different from the branch that was
checked out at that moment. -/
theorem c1_engine_never_deletes_current (env : DelEnv) (forced : Bool)
    (branches : List String) :
    TraceOK (deleteBranches env forced branches).1 ∧
    (∀ (p s : List Ev) (b c : String) (f : Bool) (r : Option String),
       (deleteBranches env forced branches).1 =
         p ++ Ev.queryCurrent (some c) :: Ev.execDel b f r :: s → b ≠ c) ∧
    (∀ (p s : List Ev) (b c : String),
       (deleteBranches env forced branches).1 =
         p ++ Ev.queryCurrent (some c) :: Ev.skipCur b :: s → b = c) :=
  have h := deleteBranchesGo_traceOK env forced branches 0 0 []
  ⟨h, fun p s b c f r hp => traceOK_exec_ne h p s b c f r hp,
    fun p s b c hp => traceOK_skip_eq h p s b c hp⟩

/-- Witness for C1: in a concrete run the engine deletes `feat` only after
observing that the current branch `work` differs from it, and skips `work`
itself. -/
theorem c1_engine_never_deletes_current_witness :
    ("feat" : String) ≠ "work" ∧ ("work" : String) = "work" :=
  ⟨(c1_engine_never_deletes_current delEnvW false ["feat"]).2.1 [] [] "feat" "work"
      false none (by decide),
    (c1_engine_never_deletes_current delEnvW false ["work"]).2.2 [] [] "work" "work"
      (by decide)⟩

theorem deleteBranchesGo_none_iff (env : DelEnv) (forced : Bool) :
    ∀ (bs : List String) (kc kd : Nat) (acc : List String),
      (deleteBranchesGo env forced bs kc kd acc).2 = none ↔
        Ev.queryCurrent none ∈ (deleteBranchesGo env forced bs kc kd acc).1 := by
  intro bs
  induction bs with
  | nil => intro kc kd acc; simp [deleteBranchesGo]
  | cons b rest ih =>
    intro kc kd acc
    simp only [deleteBranchesGo]
    cases hc : env.cur kc with
    | none => simp
    | some c =>
      by_cases hbc : b = c
      · simp [if_pos hbc, ih]
      · simp only [if_neg hbc]
        cases hd : env.del kd b forced <;> simp [ih]

theorem deleteBranchesGo_failed (env : DelEnv) (forced : Bool) :
    ∀ (bs : List String) (kc kd : Nat) (acc f : List String),
      (deleteBranchesGo env forced bs kc kd acc).2 = some f →
        f = acc ++ (deleteBranchesGo env forced bs kc kd acc).1.filterMap unmergedOf := by
  intro bs
  induction bs with
  | nil =>
    intro kc kd acc f h
    simp only [deleteBranchesGo, Option.some.injEq] at h
    simp [deleteBranchesGo, ← h]
  | cons b rest ih =>
    intro kc kd acc f h
    cases hc : env.cur kc with
    | none =>
      simp only [deleteBranchesGo, hc] at h
      cases h
    | some c =>
      by_cases hbc : b = c
      · simp only [deleteBranchesGo, hc, if_pos hbc] at h ⊢
        have := ih (kc + 1) kd acc f h
        simpa [unmergedOf, List.filterMap_cons] using this
      · cases hd : env.del kd b forced with
        | none =>
          simp only [deleteBranchesGo, hc, if_neg hbc, hd] at h ⊢
          have := ih (kc + 1) (kd + 1) acc f h
          simpa [unmergedOf, List.filterMap_cons] using this
        | some stderr =>
          cases forced with
          | true =>
            simp only [deleteBranchesGo, hc, if_neg hbc, hd, Bool.not_true,
              Bool.false_and, Bool.false_eq_true, if_false] at h ⊢
            have := ih (kc + 1) (kd + 1) acc f h
            simpa [unmergedOf, List.filterMap_cons] using this
          | false =>
            cases hct : containsSub stderr.toList notFullyMergedToken with
            | true =>
              have hct2 : containsSub stderr.data notFullyMergedToken = true := hct
              simp only [deleteBranchesGo, hc, if_neg hbc, hd, hct, Bool.not_false,
                Bool.true_and, if_true] at h ⊢
              have := ih (kc + 1) (kd + 1) (acc ++ [b]) f h
              simpa [unmergedOf, hct, hct2, List.filterMap_cons, List.append_assoc]
                using this
            | false =>
              have hct2 : containsSub stderr.data notFullyMergedToken = false := hct
              simp only [deleteBranchesGo, hc, if_neg hbc, hd, hct, Bool.not_false,
                Bool.true_and, Bool.false_eq_true, if_false] at h ⊢
              have := ih (kc + 1) (kd + 1) acc f h
              simpa [unmergedOf, hct, hct2, List.filterMap_cons] using this

theorem deleteBranchesGo_total (env : DelEnv) (forced : Bool) :
    ∀ (bs : List String) (kc kd : Nat) (acc : List String),
      (∀ k, k < bs.length → (env.cur (kc + k)).isSome = true) →
      (deleteBranchesGo env forced bs kc kd acc).2 ≠ none ∧
      (deleteBranchesGo env forced bs kc kd acc).1.length = 2 * bs.length := by
  intro bs
  induction bs with
  | nil => intro kc kd acc h; simp [deleteBranchesGo]
  | cons b rest ih =>
    intro kc kd acc h
    have h0 : (env.cur kc).isSome = true := by simpa using h 0 (by simp)
    have hrest : ∀ k, k < rest.length → (env.cur (kc + 1 + k)).isSome = true := by
      intro k hk
      have := h (k + 1) (by simpa using Nat.succ_lt_succ hk)
      rwa [show kc + (k + 1) = kc + 1 + k by omega] at this
    cases hc : env.cur kc with
    | none => rw [hc] at h0; cases h0
    | some c =>
      by_cases hbc : b = c
      · obtain ⟨hne, hlen⟩ := ih (kc + 1) kd acc hrest
        simp only [deleteBranchesGo, hc, if_pos hbc]
        refine ⟨by simpa using hne, ?_⟩
        simp only [List.length_cons, hlen]
        omega
      · cases hd : env.del kd b forced with
        | none =>
          obtain ⟨hne, hlen⟩ := ih (kc + 1) (kd + 1) acc hrest
          simp only [deleteBranchesGo, hc, if_neg hbc, hd]
          refine ⟨by simpa using hne, ?_⟩
          simp only [List.length_cons, hlen]
          omega
        | some stderr =>
          obtain ⟨hne, hlen⟩ := ih (kc + 1) (kd + 1)
            (if !forced && containsSub stderr.toList notFullyMergedToken
             then acc ++ [b] else acc) hrest
          simp only [deleteBranchesGo, hc, if_neg hbc, hd]
          refine ⟨by simpa using hne, ?_⟩
          simp only [List.length_cons, hlen]
          omega

theorem deleteBranchesGo_fatal_last (env : DelEnv) (forced : Bool) :
    ∀ (bs : List String) (kc kd : Nat) (acc : List String),
      (deleteBranchesGo env forced bs kc kd acc).2 = none →
        (deleteBranchesGo env forced bs kc kd acc).1.getLast? =
          some (Ev.queryCurrent none) := by
  intro bs
  induction bs with
  | nil => intro kc kd acc h; simp [deleteBranchesGo] at h
  | cons b rest ih =>
    intro kc kd acc h
    cases hc : env.cur kc with
    | none => simp [deleteBranchesGo, hc]
    | some c =>
      by_cases hbc : b = c
      · simp only [deleteBranchesGo, hc, if_pos hbc] at h ⊢
        have hlast := ih (kc + 1) kd acc h
        rcases ht : (deleteBranchesGo env forced rest (kc + 1) kd acc).1 with _ | ⟨x, t⟩
        · rw [ht] at hlast; simp at hlast
        · rw [ht] at hlast
          simpa [List.getLast?_cons_cons] using hlast
      · cases hd : env.del kd b forced with
        | none =>
          simp only [deleteBranchesGo, hc, if_neg hbc, hd] at h ⊢
          have hlast := ih (kc + 1) (kd + 1) acc h
          rcases ht : (deleteBranchesGo env forced rest (kc + 1) (kd + 1) acc).1
            with _ | ⟨x, t⟩
          · rw [ht] at hlast; simp at hlast
          · rw [ht] at hlast
            simpa [List.getLast?_cons_cons] using hlast
        | some stderr =>
          simp only [deleteBranchesGo, hc, if_neg hbc, hd] at h ⊢
          have hlast := ih (kc + 1) (kd + 1)
            (if !forced && containsSub stderr.toList notFullyMergedToken
             then acc ++ [b] else acc) h
          rcases ht : (deleteBranchesGo env forced rest (kc + 1) (kd + 1)
              (if !forced && containsSub stderr.toList notFullyMergedToken
               then acc ++ [b] else acc)).1 with _ | ⟨x, t⟩
          · rw [ht] at hlast; simp at hlast
          · rw [ht] at hlast
            simpa [List.getLast?_cons_cons] using hlast

/-- C5: an individual branch-deletion failure never aborts the batch: the
engine returns a fatal error exactly when a current-branch query fails (and
then the trace ends right there, abandoning the rest); otherwise the returned
recoverable list is exactly the safe-mode not-fully-merged failures recorded
in the trace, and when every current-branch query succeeds the engine
processes every name (two events per name) regardless of deletion
failures. -/
theorem c5_failures_never_abort (env : DelEnv) (forced : Bool)
    (branches : List String) :
    ((deleteBranches env forced branches).2 = none ↔
       Ev.queryCurrent none ∈ (deleteBranches env forced branches).1) ∧
    (∀ f, (deleteBranches env forced branches).2 = some f →
       f = (deleteBranches env forced branches).1.filterMap unmergedOf) ∧
    ((∀ k, k < branches.length → (env.cur k).isSome = true) →
       (deleteBranches env forced branches).2 ≠ none ∧
       (deleteBranches env forced branches).1.length = 2 * branches.length) ∧
    ((deleteBranches env forced branches).2 = none →
       (deleteBranches env forced branches).1.getLast? =
         some (Ev.queryCurrent none)) := by
  refine ⟨deleteBranchesGo_none_iff env forced branches 0 0 [], ?_, ?_,
    deleteBranchesGo_fatal_last env forced branches 0 0 []⟩
  · intro f h
    simpa using deleteBranchesGo_failed env forced branches 0 0 [] f h
  · intro h
    exact deleteBranchesGo_total env forced branches 0 0 [] (by simpa using h)

/-- Witness for C5: a run in which the first deletion fails for another
reason still processes both branches and returns without a fatal error. -/
theorem c5_failures_never_abort_witness :
    (deleteBranches delEnvC false ["a", "b"]).2 ≠ none ∧
    (deleteBranches delEnvC false ["a", "b"]).1.length =
      2 * (["a", "b"] : List String).length :=
  (c5_failures_never_abort delEnvC false ["a", "b"]).2.2.1 (by decide)

/-- C9: the Deletion Engine's current-branch skip is exact, case-sensitive
string equality: a batch name that differs from the current branch only in
letter case is not skipped and a deletion subprocess is issued for it — while
the Guard's stay-branch removal compares case-insensitively and so removes
such a name. -/
theorem c9_skip_case_sensitive (env : DelEnv) (forced : Bool) (b c : String)
    (h1 : env.cur 0 = some c) (h2 : b ≠ c) (h3 : jsToLower b = jsToLower c) :
    (deleteBranches env forced [b]).1 =
      [Ev.queryCurrent (some c), Ev.execDel b forced (env.del 0 b forced)] ∧
    (∀ (g : GuardEnv) (d a : String) (bs : List String),
       g.cur = some c → g.switchAns = some a → isYes a = false →
       jsToLower c ≠ jsToLower d →
       (preCleanupCheck g (b :: bs) (some d)).2 =
         some ((b :: bs).filter (fun x => !(jsToLower x == jsToLower c))) ∧
       b ∉ ((b :: bs).filter (fun x => !(jsToLower x == jsToLower c)))) := by
  constructor
  · cases hd : env.del 0 b forced <;>
      simp [deleteBranches, deleteBranchesGo, h1, h2, hd]
  · intro g d a bs hcur hans hyes hlow
    constructor
    · simp [preCleanupCheck, hcur, hans, hyes, hlow]
    · intro hmem
      have := (List.mem_filter.mp hmem).2
      rw [h3] at this
      simp at this

/-- Witness for C9: with current branch `main`, the batch name `Main` gets a
deletion subprocess (no skip), while the Guard's stay filter removes it. -/
theorem c9_skip_case_sensitive_witness :
    (deleteBranches delEnvM false ["Main"]).1 =
      [Ev.queryCurrent (some "main"), Ev.execDel "Main" false none] ∧
    ("Main" : String) ∉
      (["Main"].filter (fun x => !(jsToLower x == jsToLower "main"))) := by
  have h := c9_skip_case_sensitive delEnvM false "Main" "main" rfl (by decide) (by decide)
  exact ⟨h.1, (h.2 guardEnvW "master" "no" [] rfl rfl (by decide) (by decide)).2⟩

/-! ### Per-phase trace shape lemmas -/

theorem getDefaultMainBranch_shape (m ms c : Option String) :
    (getDefaultMainBranch m ms c).1 = [] ∨
      ∃ a, (getDefaultMainBranch m ms c).1 = [Ev.promptDefault a] := by
  unfold getDefaultMainBranch
  cases hb : (branchExists m && branchExists ms) with
  | true =>
    cases c with
    | none => exact Or.inr ⟨none, by simp⟩
    | some s => exact Or.inr ⟨some s, by simp⟩
  | false =>
    left
    cases hm : branchExists m <;> cases hms : branchExists ms <;> simp_all

theorem preCleanupCheck_events (g : GuardEnv) (bs : List String) (d : Option String) :
    ∀ e ∈ (preCleanupCheck g bs d).1, guardEv e = true := by
  unfold preCleanupCheck
  cases d with
  | none => simp
  | some dd =>
    cases hg : g.cur with
    | none => simp [guardEv]
    | some c =>
      cases hlow : (jsToLower c == jsToLower dd) with
      | true => simp [hlow, guardEv]
      | false =>
        cases ha : g.switchAns with
        | none => simp [hlow, ha, guardEv]
        | some a =>
          cases hy : isYes a with
          | true =>
            cases hco : g.checkoutRes with
            | none => simp [hlow, ha, hy, hco, guardEv]
            | some e => simp [hlow, ha, hy, hco, guardEv]
          | false => simp [hlow, ha, hy, guardEv]

theorem deleteBranchesGo_events (env : DelEnv) (forced : Bool) :
    ∀ (bs : List String) (kc kd : Nat) (acc : List String) (e : Ev),
      e ∈ (deleteBranchesGo env forced bs kc kd acc).1 → engineEv e = true := by
  intro bs
  induction bs with
  | nil => intro kc kd acc e he; simp [deleteBranchesGo] at he
  | cons b rest ih =>
    intro kc kd acc e he
    cases hc : env.cur kc with
    | none =>
      simp only [deleteBranchesGo, hc, List.mem_singleton] at he
      subst he
      rfl
    | some c =>
      by_cases hbc : b = c
      · simp only [deleteBranchesGo, hc, if_pos hbc, List.mem_cons] at he
        rcases he with rfl | rfl | he
        · rfl
        · rfl
        · exact ih _ _ _ e he
      · cases hd : env.del kd b forced with
        | none =>
          simp only [deleteBranchesGo, hc, if_neg hbc, hd, List.mem_cons] at he
          rcases he with rfl | rfl | he
          · rfl
          · rfl
          · exact ih _ _ _ e he
        | some stderr =>
          simp only [deleteBranchesGo, hc, if_neg hbc, hd, List.mem_cons] at he
          rcases he with rfl | rfl | he
          · rfl
          · rfl
          · exact ih _ _ _ e he

theorem deleteBranchesGo_exec_forced (env : DelEnv) (forced : Bool) :
    ∀ (bs : List String) (kc kd : Nat) (acc : List String) (b : String) (f : Bool)
      (r : Option String),
      Ev.execDel b f r ∈ (deleteBranchesGo env forced bs kc kd acc).1 → f = forced := by
  intro bs
  induction bs with
  | nil => intro kc kd acc b f r he; simp [deleteBranchesGo] at he
  | cons b0 rest ih =>
    intro kc kd acc b f r he
    cases hc : env.cur kc with
    | none => simp only [deleteBranchesGo, hc, List.mem_singleton] at he; cases he
    | some c =>
      by_cases hbc : b0 = c
      · simp only [deleteBranchesGo, hc, if_pos hbc, List.mem_cons] at he
        rcases he with heq | heq | he
        · cases heq
        · cases heq
        · exact ih _ _ _ b f r he
      · cases hd : env.del kd b0 forced with
        | none =>
          simp only [deleteBranchesGo, hc, if_neg hbc, hd, List.mem_cons] at he
          rcases he with heq | heq | he
          · cases heq
          · cases heq; rfl
          · exact ih _ _ _ b f r he
        | some stderr =>
          simp only [deleteBranchesGo, hc, if_neg hbc, hd, List.mem_cons] at he
          rcases he with heq | heq | he
          · cases heq
          · cases heq; rfl
          · exact ih _ _ _ b f r he

theorem engineEv_delPhaseEv {e : Ev} (h : engineEv e = true) : delPhaseEv e = true := by
  cases e <;> simp_all [engineEv, delPhaseEv]

theorem delPhase_events (env : MainEnv) (opt : Nat) (final : List String) :
    ∀ e ∈ (delPhase env opt final).1, delPhaseEv e = true := by
  intro e he
  by_cases h2 : opt = 2
  · simp only [delPhase, if_pos h2] at he
    rcases List.mem_cons.mp he with rfl | he
    · rfl
    · exact engineEv_delPhaseEv (deleteBranchesGo_events env.del1 true final 0 0 [] e he)
  · by_cases h13 : (opt = 1 || opt = 3) = true
    · cases her : (deleteBranches env.del1 false final).2 with
      | none =>
        simp only [delPhase, if_neg h2, h13, if_true, her] at he
        rcases List.mem_cons.mp he with rfl | he
        · rfl
        · exact engineEv_delPhaseEv (deleteBranchesGo_events env.del1 false final 0 0 [] e he)
      | some failed =>
        by_cases hfe : failed.isEmpty = true
        · simp only [delPhase, if_neg h2, h13, if_true, her, hfe] at he
          rcases List.mem_cons.mp he with rfl | he
          · rfl
          · exact engineEv_delPhaseEv
              (deleteBranchesGo_events env.del1 false final 0 0 [] e he)
        · cases hfa : env.forceAns with
          | none =>
            simp only [delPhase, if_neg h2, h13, if_true, her, hfe, if_false, hfa] at he
            rcases List.mem_cons.mp he with rfl | he
            · rfl
            · rcases List.mem_append.mp he with he | he
              · exact engineEv_delPhaseEv
                  (deleteBranchesGo_events env.del1 false final 0 0 [] e he)
              · rcases List.mem_singleton.mp he with rfl
                rfl
          | some a =>
            cases hy : isYes a with
            | true =>
              simp only [delPhase, if_neg h2, h13, if_true, her, hfe, if_false, hfa,
                hy] at he
              rcases List.mem_cons.mp he with rfl | he
              · rfl
              · rcases List.mem_append.mp he with he | he
                · exact engineEv_delPhaseEv
                    (deleteBranchesGo_events env.del1 false final 0 0 [] e he)
                · rcases List.mem_cons.mp he with rfl | he
                  · rfl
                  · rcases List.mem_cons.mp he with rfl | he
                    · rfl
                    · exact engineEv_delPhaseEv
                        (deleteBranchesGo_events env.del2 true failed 0 0 [] e he)
            | false =>
              simp only [delPhase, if_neg h2, h13, if_true, her, hfe, if_false, hfa,
                hy] at he
              rcases List.mem_cons.mp he with rfl | he
              · rfl
              · rcases List.mem_append.mp he with he | he
                · exact engineEv_delPhaseEv
                    (deleteBranchesGo_events env.del1 false final 0 0 [] e he)
                · rcases List.mem_singleton.mp he with rfl
                  rfl
    · have h13' : (opt = 1 || opt = 3) = false := by simpa using h13
      simp only [delPhase, if_neg h2, h13', if_false] at he
      simp at he

theorem delPhase_force_prompt (env : MainEnv) (opt : Nat) (final : List String)
    (a : Option String) (h : Ev.promptForce a ∈ (delPhase env opt final).1) :
    ∃ f, (deleteBranches env.del1 false final).2 = some f ∧ f ≠ [] ∧
      Ev.runEngine final false ∈ (delPhase env opt final).1 := by
  by_cases h2 : opt = 2
  · exfalso
    simp only [delPhase, if_pos h2] at h
    rcases List.mem_cons.mp h with heq | h
    · cases heq
    · have := deleteBranchesGo_events env.del1 true final 0 0 [] _ h
      simp [engineEv] at this
  · by_cases h13 : (opt = 1 || opt = 3) = true
    · cases her : (deleteBranches env.del1 false final).2 with
      | none =>
        exfalso
        simp only [delPhase, if_neg h2, h13, if_true, her] at h
        rcases List.mem_cons.mp h with heq | h
        · cases heq
        · have := deleteBranchesGo_events env.del1 false final 0 0 [] _ h
          simp [engineEv] at this
      | some failed =>
        by_cases hfe : failed.isEmpty = true
        · exfalso
          simp only [delPhase, if_neg h2, h13, if_true, her, hfe] at h
          rcases List.mem_cons.mp h with heq | h
          · cases heq
          · have := deleteBranchesGo_events env.del1 false final 0 0 [] _ h
            simp [engineEv] at this
        · refine ⟨failed, rfl, by simpa using hfe, ?_⟩
          cases hfa : env.forceAns with
          | none => simp [delPhase, if_neg h2, h13, her, hfe, hfa]
          | some a' =>
            cases hy : isYes a' <;>
              simp [delPhase, if_neg h2, h13, her, hfe, hfa, hy]
    · exfalso
      have h13' : (opt = 1 || opt = 3) = false := by simpa using h13
      simp only [delPhase, if_neg h2, h13', if_false] at h
      simp at h

theorem isEmpty_false_of_ne_nil {α : Type} {l : List α} (h : l ≠ []) :
    l.isEmpty = false := by
  cases hh : l.isEmpty
  · rfl
  · exact absurd (List.isEmpty_iff.mp hh) h

/-! ### Control-flow reach lemmas for the orchestrator -/

theorem mainRun_reach (env : MainEnv) (rt : List Ev) (dfl : Option String) (out : String)
    (opt : Nat)
    (h1 : env.isRepo = true)
    (h2 : getDefaultMainBranch env.mainRes env.masterRes env.defaultChoice = (rt, some dfl))
    (h3 : env.listOut = some out)
    (h4 : getDetachedBranches out ≠ [])
    (h5 : env.optionAns = some opt)
    (h6 : opt ≠ 4) :
    mainRun env =
      (rt ++ Ev.resolveDone dfl :: Ev.listDone (getDetachedBranches out) ::
         Ev.promptOption (some opt) ::
           (mainWithOption env dfl (getDetachedBranches out) opt).1,
       (mainWithOption env dfl (getDetachedBranches out) opt).2) := by
  have hbs : (getDetachedBranches out).isEmpty = false := isEmpty_false_of_ne_nil h4
  simp [mainRun, h1, h2, h3, hbs, h5, h6]

theorem mainWithOption_reach_ok (env : MainEnv) (dfl : Option String) (bs : List String)
    (opt : Nat) (gt : List Ev) (final : List String)
    (h7 : (opt = 3 && dfl.isSome && (optFilter opt dfl bs).isEmpty) = false)
    (h8 : preCleanupCheck env.guard (optFilter opt dfl bs) dfl = (gt, some final)) :
    mainWithOption env dfl bs opt =
      (gt ++ (mainAfterGuard env opt final).1, (mainAfterGuard env opt final).2) := by
  simp [mainWithOption, h7, h8]

theorem mainWithOption_reach_err (env : MainEnv) (dfl : Option String) (bs : List String)
    (opt : Nat) (gt : List Ev)
    (h7 : (opt = 3 && dfl.isSome && (optFilter opt dfl bs).isEmpty) = false)
    (h8 : preCleanupCheck env.guard (optFilter opt dfl bs) dfl = (gt, none)) :
    mainWithOption env dfl bs opt = (gt, 1) := by
  simp [mainWithOption, h7, h8]

theorem mainAfterGuard_proceed (env : MainEnv) (opt : Nat) (final : List String)
    (ca : String)
    (h9 : final ≠ []) (h10 : env.confirmAns = some ca) (h11 : isYes ca = true) :
    mainAfterGuard env opt final =
      (Ev.disclaimerShown :: Ev.promptConfirm (some ca) :: (delPhase env opt final).1,
       (delPhase env opt final).2) := by
  have hf : final.isEmpty = false := isEmpty_false_of_ne_nil h9
  simp [mainAfterGuard, confirmDisclaimer, hf, h10, h11]

theorem mainAfterGuard_cancel (env : MainEnv) (opt : Nat) (final : List String)
    (ca : String)
    (h9 : final ≠ []) (h10 : env.confirmAns = some ca) (h11 : isYes ca = false) :
    mainAfterGuard env opt final =
      ([Ev.disclaimerShown, Ev.promptConfirm (some ca)], 0) := by
  have hf : final.isEmpty = false := isEmpty_false_of_ne_nil h9
  simp [mainAfterGuard, confirmDisclaimer, hf, h10, h11]

/-! ### Master decomposition of every `main()` trace -/

theorem mainRun_split (env : MainEnv) :
    ∃ rt mid gt post code,
      mainRun env = (rt ++ (mid ++ (gt ++ post)), code) ∧
      (rt = [] ∨ ∃ a, rt = [Ev.promptDefault a]) ∧
      (∀ e ∈ mid, midEv e = true) ∧
      (∀ e ∈ gt, guardEv e = true) ∧
      (post = [] ∨
       (post = [Ev.info msgNoneAfterGuard] ∧ code = 0) ∨
       (env.confirmAns = none ∧ post = [Ev.disclaimerShown, Ev.promptConfirm none] ∧
          code = 1) ∨
       (∃ ca, env.confirmAns = some ca ∧ isYes ca = false ∧
          post = [Ev.disclaimerShown, Ev.promptConfirm (some ca)] ∧ code = 0) ∨
       (∃ ca opt final, env.confirmAns = some ca ∧ isYes ca = true ∧
          env.optionAns = some opt ∧
          post = Ev.disclaimerShown :: Ev.promptConfirm (some ca) ::
            (delPhase env opt final).1 ∧
          code = (delPhase env opt final).2)) := by
  by_cases hrepo : env.isRepo = true
  case neg =>
    have hrepo' : env.isRepo = false := by simpa using hrepo
    exact ⟨[], [], [], [], 1, by simp [mainRun, hrepo'], Or.inl rfl, by simp, by simp,
      Or.inl rfl⟩
  case pos =>
  rcases hres : getDefaultMainBranch env.mainRes env.masterRes env.defaultChoice
    with ⟨rt, rres⟩
  have hrt : rt = [] ∨ ∃ a, rt = [Ev.promptDefault a] := by
    have h := getDefaultMainBranch_shape env.mainRes env.masterRes env.defaultChoice
    rw [hres] at h
    exact h
  cases rres with
  | none =>
    exact ⟨rt, [], [], [], 1, by simp [mainRun, hrepo, hres], hrt, by simp, by simp,
      Or.inl rfl⟩
  | some dfl =>
    cases hlist : env.listOut with
    | none =>
      exact ⟨rt, [Ev.resolveDone dfl, Ev.listFailed], [], [], 1,
        by simp [mainRun, hrepo, hres, hlist], hrt, by simp [midEv], by simp, Or.inl rfl⟩
    | some out =>
      cases hbs : (getDetachedBranches out).isEmpty with
      | true =>
        exact ⟨rt, [Ev.resolveDone dfl, Ev.listDone (getDetachedBranches out),
            Ev.info msgNoStale], [], [], 0,
          by simp [mainRun, hrepo, hres, hlist, hbs], hrt, by simp [midEv], by simp,
          Or.inl rfl⟩
      | false =>
        cases hopt : env.optionAns with
        | none =>
          exact ⟨rt, [Ev.resolveDone dfl, Ev.listDone (getDetachedBranches out),
              Ev.promptOption none], [], [], 1,
            by simp [mainRun, hrepo, hres, hlist, hbs, hopt], hrt, by simp [midEv],
            by simp, Or.inl rfl⟩
        | some opt =>
          by_cases h4 : opt = 4
          · exact ⟨rt, [Ev.resolveDone dfl, Ev.listDone (getDetachedBranches out),
                Ev.promptOption (some opt)], [], [], 0,
              by simp [mainRun, hrepo, hres, hlist, hbs, hopt, h4], hrt, by simp [midEv],
              by simp, Or.inl rfl⟩
          · cases hfe : (opt = 3 && dfl.isSome &&
                (optFilter opt dfl (getDetachedBranches out)).isEmpty) with
            | true =>
              exact ⟨rt, [Ev.resolveDone dfl, Ev.listDone (getDetachedBranches out),
                  Ev.promptOption (some opt),
                  Ev.info (msgNoneAfterFilter (dfl.getD ""))], [], [], 0,
                by simp [mainRun, mainWithOption, hrepo, hres, hlist, hbs, hopt, h4, hfe],
                hrt, by simp [midEv], by simp, Or.inl rfl⟩
            | false =>
              rcases hpc : preCleanupCheck env.guard
                  (optFilter opt dfl (getDetachedBranches out)) dfl with ⟨gt, gres⟩
              have hgt : ∀ e ∈ gt, guardEv e = true := by
                have h := preCleanupCheck_events env.guard
                  (optFilter opt dfl (getDetachedBranches out)) dfl
                rw [hpc] at h
                exact h
              cases gres with
              | none =>
                exact ⟨rt, [Ev.resolveDone dfl, Ev.listDone (getDetachedBranches out),
                    Ev.promptOption (some opt)], gt, [], 1,
                  by simp [mainRun, mainWithOption, hrepo, hres, hlist, hbs, hopt, h4,
                    hfe, hpc],
                  hrt, by simp [midEv], hgt, Or.inl rfl⟩
              | some final =>
                cases hempty : final.isEmpty with
                | true =>
                  exact ⟨rt, [Ev.resolveDone dfl, Ev.listDone (getDetachedBranches out),
                      Ev.promptOption (some opt)], gt, [Ev.info msgNoneAfterGuard], 0,
                    by simp [mainRun, mainWithOption, mainAfterGuard, hrepo, hres, hlist,
                      hbs, hopt, h4, hfe, hpc, hempty],
                    hrt, by simp [midEv], hgt, Or.inr (Or.inl ⟨rfl, rfl⟩)⟩
                | false =>
                  cases hconf : env.confirmAns with
                  | none =>
                    exact ⟨rt, [Ev.resolveDone dfl,
                        Ev.listDone (getDetachedBranches out),
                        Ev.promptOption (some opt)], gt,
                        [Ev.disclaimerShown, Ev.promptConfirm none], 1,
                      by simp [mainRun, mainWithOption, mainAfterGuard, confirmDisclaimer,
                        hrepo, hres, hlist, hbs, hopt, h4, hfe, hpc, hempty, hconf],
                      hrt, by simp [midEv], hgt,
                      Or.inr (Or.inr (Or.inl ⟨rfl, rfl, rfl⟩))⟩
                  | some ca =>
                    cases hyes : isYes ca with
                    | false =>
                      exact ⟨rt, [Ev.resolveDone dfl,
                          Ev.listDone (getDetachedBranches out),
                          Ev.promptOption (some opt)], gt,
                          [Ev.disclaimerShown, Ev.promptConfirm (some ca)], 0,
                        by simp [mainRun, mainWithOption, mainAfterGuard,
                          confirmDisclaimer, hrepo, hres, hlist, hbs, hopt, h4, hfe, hpc,
                          hempty, hconf, hyes],
                        hrt, by simp [midEv], hgt,
                        Or.inr (Or.inr (Or.inr (Or.inl ⟨ca, rfl, hyes, rfl, rfl⟩)))⟩
                    | true =>
                      exact ⟨rt, [Ev.resolveDone dfl,
                          Ev.listDone (getDetachedBranches out),
                          Ev.promptOption (some opt)], gt,
                          Ev.disclaimerShown :: Ev.promptConfirm (some ca) ::
                            (delPhase env opt final).1,
                          (delPhase env opt final).2,
                        by simp [mainRun, mainWithOption, mainAfterGuard,
                          confirmDisclaimer, hrepo, hres, hlist, hbs, hopt, h4, hfe, hpc,
                          hempty, hconf, hyes],
                        hrt, by simp [midEv], hgt,
                        Or.inr (Or.inr (Or.inr (Or.inr
                          ⟨ca, opt, final, rfl, hyes, rfl, rfl, rfl⟩)))⟩

/-! ### Generic membership helpers -/

theorem notMem_of_pred {p : Ev → Bool} {t : List Ev} (h : ∀ e ∈ t, p e = true)
    {e : Ev} (hp : p e = false) : e ∉ t := by
  intro hm
  rw [h e hm] at hp
  cases hp

theorem mem_prefix_of_append_eq {l₁ l₂ p s : List Ev} {e : Ev}
    (h : l₁ ++ l₂ = p ++ e :: s) (he : e ∉ l₁) : ∀ x ∈ l₁, x ∈ p := by
  rcases List.append_eq_append_iff.mp h with ⟨a', ha, _⟩ | ⟨c', hc, hd⟩
  · intro x hx
    rw [ha]
    exact List.mem_append_left _ hx
  · cases c' with
    | nil =>
      intro x hx
      rw [hc] at hx
      simpa using hx
    | cons y c'' =>
      exfalso
      apply he
      have hy : e = y := by
        have := hd
        simp only [List.cons_append, List.cons.injEq] at this
        exact this.1
      rw [hc, hy]
      simp

/-- C3: in every run, no deletion subprocess is issued before the
destructive-action disclaimer has been affirmed (yes/y, case-insensitive): the
disclaimer is shown at most once per run, every deletion subprocess event is
preceded by the disclaimer and an affirmative answer, and a negative answer
ends the run with exit code 0 and no deletion subprocess at all. -/
theorem c3_disclaimer_gates_deletion (env : MainEnv) :
    ((mainRun env).1.count Ev.disclaimerShown ≤ 1) ∧
    (∀ (p s : List Ev) (b : String) (f : Bool) (r : Option String),
       (mainRun env).1 = p ++ Ev.execDel b f r :: s →
       ∃ a, Ev.disclaimerShown ∈ p ∧ Ev.promptConfirm (some a) ∈ p ∧ isYes a = true) ∧
    (∀ a, Ev.promptConfirm (some a) ∈ (mainRun env).1 → isYes a = false →
       (mainRun env).2 = 0 ∧
       ∀ (b : String) (f : Bool) (r : Option String),
         Ev.execDel b f r ∉ (mainRun env).1) := by
  obtain ⟨rt, mid, gt, post, code, heq, hrt, hmid, hgt, hpost⟩ := mainRun_split env
  have hrtP : ∀ e ∈ rt, isPromptDefaultEv e = true := by
    rcases hrt with rfl | ⟨a, rfl⟩ <;> simp [isPromptDefaultEv]
  have htr : (mainRun env).1 = rt ++ (mid ++ (gt ++ post)) := by rw [heq]
  have hcode : (mainRun env).2 = code := by rw [heq]
  have hrtE : ∀ (b : String) (f : Bool) (r : Option String), Ev.execDel b f r ∉ rt :=
    fun b f r => notMem_of_pred hrtP rfl
  have hmidE : ∀ (b : String) (f : Bool) (r : Option String), Ev.execDel b f r ∉ mid :=
    fun b f r => notMem_of_pred hmid rfl
  have hgtE : ∀ (b : String) (f : Bool) (r : Option String), Ev.execDel b f r ∉ gt :=
    fun b f r => notMem_of_pred hgt rfl
  have hrtD : Ev.disclaimerShown ∉ rt := notMem_of_pred hrtP rfl
  have hmidD : Ev.disclaimerShown ∉ mid := notMem_of_pred hmid rfl
  have hgtD : Ev.disclaimerShown ∉ gt := notMem_of_pred hgt rfl
  have hrtC : ∀ a, Ev.promptConfirm a ∉ rt := fun a => notMem_of_pred hrtP rfl
  have hmidC : ∀ a, Ev.promptConfirm a ∉ mid := fun a => notMem_of_pred hmid rfl
  have hgtC : ∀ a, Ev.promptConfirm a ∉ gt := fun a => notMem_of_pred hgt rfl
  refine ⟨?_, ?_, ?_⟩
  · rw [htr]
    simp only [List.count_append]
    rw [List.count_eq_zero.mpr hrtD, List.count_eq_zero.mpr hmidD,
      List.count_eq_zero.mpr hgtD]
    rcases hpost with rfl | ⟨rfl, _⟩ | ⟨_, rfl, _⟩ | ⟨ca, _, _, rfl, _⟩ |
      ⟨ca, opt, final, _, _, _, rfl, _⟩
    · simp
    · simp
    · simp
    · simp
    · have hdp : Ev.disclaimerShown ∉ (delPhase env opt final).1 :=
        notMem_of_pred (delPhase_events env opt final) rfl
      simp [List.count_eq_zero.mpr hdp]
  · intro p s b f r hp
    have hmem : Ev.execDel b f r ∈ (mainRun env).1 := by
      rw [hp]
      simp
    rcases hpost with rfl | ⟨rfl, _⟩ | ⟨_, rfl, _⟩ | ⟨ca, _, _, rfl, _⟩ |
      ⟨ca, opt, final, hca, hyes, _, rfl, _⟩
    · exfalso
      rw [htr] at hmem
      rcases List.mem_append.mp hmem with hm | hm
      · exact hrtE b f r hm
      rcases List.mem_append.mp hm with hm | hm
      · exact hmidE b f r hm
      rcases List.mem_append.mp hm with hm | hm
      · exact hgtE b f r hm
      · simp at hm
    · exfalso
      rw [htr] at hmem
      rcases List.mem_append.mp hmem with hm | hm
      · exact hrtE b f r hm
      rcases List.mem_append.mp hm with hm | hm
      · exact hmidE b f r hm
      rcases List.mem_append.mp hm with hm | hm
      · exact hgtE b f r hm
      · simp at hm
    · exfalso
      rw [htr] at hmem
      rcases List.mem_append.mp hmem with hm | hm
      · exact hrtE b f r hm
      rcases List.mem_append.mp hm with hm | hm
      · exact hmidE b f r hm
      rcases List.mem_append.mp hm with hm | hm
      · exact hgtE b f r hm
      · simp at hm
    · exfalso
      rw [htr] at hmem
      rcases List.mem_append.mp hmem with hm | hm
      · exact hrtE b f r hm
      rcases List.mem_append.mp hm with hm | hm
      · exact hmidE b f r hm
      rcases List.mem_append.mp hm with hm | hm
      · exact hgtE b f r hm
      · simp at hm
    · -- deletion phase runs: the prefix up to the disclaimer is execDel-free
      have hassoc : (mainRun env).1 =
          (rt ++ mid ++ gt ++ [Ev.disclaimerShown, Ev.promptConfirm (some ca)]) ++
            (delPhase env opt final).1 := by
        rw [htr]
        simp [List.append_assoc]
      have hl1 : Ev.execDel b f r ∉
          (rt ++ mid ++ gt ++ [Ev.disclaimerShown, Ev.promptConfirm (some ca)]) := by
        intro hm
        rcases List.mem_append.mp hm with hm | hm
        · rcases List.mem_append.mp hm with hm | hm
          · rcases List.mem_append.mp hm with hm | hm
            · exact hrtE b f r hm
            · exact hmidE b f r hm
          · exact hgtE b f r hm
        · simp at hm
      have hpre := mem_prefix_of_append_eq (hassoc.symm.trans hp) hl1
      exact ⟨ca, hpre _ (by simp), hpre _ (by simp), hyes⟩
  · intro a hmem hno
    rw [htr] at hmem
    rcases List.mem_append.mp hmem with hm | hm
    · exact absurd hm (hrtC (some a))
    rcases List.mem_append.mp hm with hm | hm
    · exact absurd hm (hmidC (some a))
    rcases List.mem_append.mp hm with hm | hm
    · exact absurd hm (hgtC (some a))
    rcases hpost with rfl | ⟨rfl, _⟩ | ⟨_, rfl, _⟩ | ⟨ca, hca, hyes, rfl, hc0⟩ |
      ⟨ca, opt, final, hca, hyes, _, rfl, _⟩
    · simp at hm
    · simp at hm
    · simp at hm
    · have ha : a = ca := by simpa using hm
      subst ha
      constructor
      · rw [hcode, hc0]
      · intro b f r hmm
        rw [htr] at hmm
        rcases List.mem_append.mp hmm with hmm | hmm
        · exact hrtE b f r hmm
        rcases List.mem_append.mp hmm with hmm | hmm
        · exact hmidE b f r hmm
        rcases List.mem_append.mp hmm with hmm | hmm
        · exact hgtE b f r hmm
        · simp at hmm
    · exfalso
      rcases List.mem_cons.mp hm with hm | hm
      · cases hm
      rcases List.mem_cons.mp hm with hm | hm
      · have ha : a = ca := by simpa using hm
        rw [ha, hyes] at hno
        cases hno
      · have := delPhase_events env opt final _ hm
        simp [delPhaseEv] at this

/-- Witness for C3 at a concrete full run: in `envRetryYes` the first deletion
subprocess is preceded by the shown disclaimer and an affirmative answer, and
in `envDecline` (user answers no) the run exits 0 with no deletion
subprocess. -/
theorem c3_disclaimer_gates_deletion_witness :
    (∃ a, Ev.disclaimerShown ∈ c3preW ∧ Ev.promptConfirm (some a) ∈ c3preW ∧
       isYes a = true) ∧
    ((mainRun envDecline).2 = 0 ∧
     ∀ (b : String) (f : Bool) (r : Option String),
       Ev.execDel b f r ∉ (mainRun envDecline).1) :=
  ⟨(c3_disclaimer_gates_deletion envRetryYes).2.1 c3preW c3sufW "feat1" false
      (some stderrUnmerged) (by decide),
   (c3_disclaimer_gates_deletion envDecline).2.2 "no" (by decide) (by decide)⟩

theorem delPhase_no_force_of_empty (env : MainEnv) (opt : Nat) (final : List String)
    (hf0 : (deleteBranches env.del1 false final).2 = some []) :
    ∀ a, Ev.promptForce a ∉ (delPhase env opt final).1 := by
  intro a hmem
  obtain ⟨f, hf, hne, _⟩ := delPhase_force_prompt env opt final a hmem
  rw [hf0] at hf
  cases hf
  exact hne rfl

/-- C4: the forced-retry offer appears iff the SAFE pass produced at least one
FAILED_UNMERGED outcome; an affirmative answer invokes the Deletion Engine in
FORCED mode on exactly the failed set; a negative answer ends the run with
exit code 0 and no FORCED deletion subprocess; and (for every run of the
program) a forced-retry prompt can only follow a safe pass whose failed set
was non-empty. -/
theorem c4_force_retry_offer (env : MainEnv) (rt : List Ev) (dfl : Option String)
    (out : String) (opt : Nat) (gt : List Ev) (final : List String) (ca : String)
    (h1 : env.isRepo = true)
    (h2 : getDefaultMainBranch env.mainRes env.masterRes env.defaultChoice = (rt, some dfl))
    (h3 : env.listOut = some out)
    (h4 : getDetachedBranches out ≠ [])
    (h5 : env.optionAns = some opt)
    (h6 : opt = 1 ∨ opt = 3)
    (h7 : (opt = 3 && dfl.isSome &&
            (optFilter opt dfl (getDetachedBranches out)).isEmpty) = false)
    (h8 : preCleanupCheck env.guard (optFilter opt dfl (getDetachedBranches out)) dfl
            = (gt, some final))
    (h9 : final ≠ [])
    (h10 : env.confirmAns = some ca)
    (h11 : isYes ca = true) :
    (∀ f, (deleteBranches env.del1 false final).2 = some f → f ≠ [] →
       Ev.promptForce env.forceAns ∈ (mainRun env).1) ∧
    ((deleteBranches env.del1 false final).2 = some [] →
       ∀ a, Ev.promptForce a ∉ (mainRun env).1) ∧
    (∀ f a, (deleteBranches env.del1 false final).2 = some f → f ≠ [] →
       env.forceAns = some a → isYes a = true →
       Ev.runEngine f true ∈ (mainRun env).1) ∧
    (∀ f a, (deleteBranches env.del1 false final).2 = some f → f ≠ [] →
       env.forceAns = some a → isYes a = false →
       (mainRun env).2 = 0 ∧
       (∀ (b : String) (r : Option String), Ev.execDel b true r ∉ (mainRun env).1) ∧
       (∀ bs2, Ev.runEngine bs2 true ∉ (mainRun env).1)) ∧
    (∀ (env' : MainEnv) (a : Option String),
       Ev.promptForce a ∈ (mainRun env').1 →
       ∃ bsf f, Ev.runEngine bsf false ∈ (mainRun env').1 ∧
         (deleteBranches env'.del1 false bsf).2 = some f ∧ f ≠ []) := by
  have hne4 : opt ≠ 4 := by rcases h6 with rfl | rfl <;> decide
  have hne2 : ¬ opt = 2 := by rcases h6 with rfl | rfl <;> decide
  have h13 : (opt = 1 || opt = 3) = true := by rcases h6 with rfl | rfl <;> decide
  have hmain := mainRun_reach env rt dfl out opt h1 h2 h3 h4 h5 hne4
  have hwo := mainWithOption_reach_ok env dfl (getDetachedBranches out) opt gt final h7 h8
  have hag := mainAfterGuard_proceed env opt final ca h9 h10 h11
  have htr : (mainRun env).1 =
      rt ++ Ev.resolveDone dfl :: Ev.listDone (getDetachedBranches out) ::
        Ev.promptOption (some opt) ::
          (gt ++ (Ev.disclaimerShown :: Ev.promptConfirm (some ca) ::
            (delPhase env opt final).1)) := by
    rw [hmain]
    simp [hwo, hag]
  have hcode : (mainRun env).2 = (delPhase env opt final).2 := by
    rw [hmain]
    simp [hwo, hag]
  have hrt : rt = [] ∨ ∃ a, rt = [Ev.promptDefault a] := by
    have h := getDefaultMainBranch_shape env.mainRes env.masterRes env.defaultChoice
    rw [h2] at h
    exact h
  have hrtP : ∀ e ∈ rt, isPromptDefaultEv e = true := by
    rcases hrt with rfl | ⟨a, rfl⟩ <;> simp [isPromptDefaultEv]
  have hgtP : ∀ e ∈ gt, guardEv e = true := by
    have h := preCleanupCheck_events env.guard
      (optFilter opt dfl (getDetachedBranches out)) dfl
    rw [h8] at h
    exact h
  refine ⟨?_, ?_, ?_, ?_, ?_⟩
  · intro f hf hne
    have hfe : f.isEmpty = false := isEmpty_false_of_ne_nil hne
    rw [htr]
    cases hfa : env.forceAns with
    | none => simp [delPhase, hne2, h13, hf, hfe, hfa]
    | some a =>
      cases hy : isYes a with
      | true => simp [delPhase, hne2, h13, hf, hfe, hfa, hy]
      | false => simp [delPhase, hne2, h13, hf, hfe, hfa, hy]
  · intro hf0 a hmem
    rw [htr] at hmem
    rcases List.mem_append.mp hmem with hm | hm
    · exact absurd hm (notMem_of_pred hrtP rfl)
    rcases List.mem_cons.mp hm with hm | hm
    · cases hm
    rcases List.mem_cons.mp hm with hm | hm
    · cases hm
    rcases List.mem_cons.mp hm with hm | hm
    · cases hm
    rcases List.mem_append.mp hm with hm | hm
    · exact absurd hm (notMem_of_pred hgtP rfl)
    rcases List.mem_cons.mp hm with hm | hm
    · cases hm
    rcases List.mem_cons.mp hm with hm | hm
    · cases hm
    · exact delPhase_no_force_of_empty env opt final hf0 a hm
  · intro f a hf hne hfa hy
    have hfe : f.isEmpty = false := isEmpty_false_of_ne_nil hne
    rw [htr]
    simp [delPhase, hne2, h13, hf, hfe, hfa, hy]
  · intro f a hf hne hfa hy
    have hfe : f.isEmpty = false := isEmpty_false_of_ne_nil hne
    have hdp : delPhase env opt final =
        (Ev.runEngine final false :: (deleteBranches env.del1 false final).1 ++
          [Ev.promptForce (some a)], 0) := by
      simp [delPhase, hne2, h13, hf, hfe, hfa, hy]
    refine ⟨by rw [hcode, hdp], ?_, ?_⟩
    · intro b r hmem
      rw [htr] at hmem
      rcases List.mem_append.mp hmem with hm | hm
      · exact absurd hm (notMem_of_pred hrtP rfl)
      rcases List.mem_cons.mp hm with hm | hm
      · cases hm
      rcases List.mem_cons.mp hm with hm | hm
      · cases hm
      rcases List.mem_cons.mp hm with hm | hm
      · cases hm
      rcases List.mem_append.mp hm with hm | hm
      · exact absurd hm (notMem_of_pred hgtP rfl)
      rcases List.mem_cons.mp hm with hm | hm
      · cases hm
      rcases List.mem_cons.mp hm with hm | hm
      · cases hm
      rw [hdp] at hm
      rcases List.mem_cons.mp hm with hm | hm
      · cases hm
      rcases List.mem_append.mp hm with hm | hm
      · have := deleteBranchesGo_exec_forced env.del1 false final 0 0 [] b true r hm
        cases this
      · cases List.mem_singleton.mp hm
    · intro bs2 hmem
      rw [htr] at hmem
      rcases List.mem_append.mp hmem with hm | hm
      · exact absurd hm (notMem_of_pred hrtP rfl)
      rcases List.mem_cons.mp hm with hm | hm
      · cases hm
      rcases List.mem_cons.mp hm with hm | hm
      · cases hm
      rcases List.mem_cons.mp hm with hm | hm
      · cases hm
      rcases List.mem_append.mp hm with hm | hm
      · exact absurd hm (notMem_of_pred hgtP rfl)
      rcases List.mem_cons.mp hm with hm | hm
      · cases hm
      rcases List.mem_cons.mp hm with hm | hm
      · cases hm
      rw [hdp] at hm
      rcases List.mem_cons.mp hm with hm | hm
      · injection hm with hm1 hm2
        cases hm2
      rcases List.mem_append.mp hm with hm | hm
      · have := deleteBranchesGo_events env.del1 false final 0 0 [] _ hm
        simp [engineEv] at this
      · cases List.mem_singleton.mp hm
  · intro env' a hmem
    obtain ⟨rt', mid', gt', post', code', heq', hrt', hmid', hgt', hpost'⟩ :=
      mainRun_split env'
    have htr' : (mainRun env').1 = rt' ++ (mid' ++ (gt' ++ post')) := by rw [heq']
    have hrtP' : ∀ e ∈ rt', isPromptDefaultEv e = true := by
      rcases hrt' with rfl | ⟨a', rfl⟩ <;> simp [isPromptDefaultEv]
    rw [htr'] at hmem
    rcases List.mem_append.mp hmem with hm | hm
    · exact absurd hm (notMem_of_pred hrtP' rfl)
    rcases List.mem_append.mp hm with hm | hm
    · exact absurd hm (notMem_of_pred hmid' rfl)
    rcases List.mem_append.mp hm with hm | hm
    · exact absurd hm (notMem_of_pred hgt' rfl)
    rcases hpost' with rfl | ⟨rfl, _⟩ | ⟨_, rfl, _⟩ | ⟨ca', _, _, rfl, _⟩ |
      ⟨ca', opt', final', _, _, _, rfl, _⟩
    · simp at hm
    · simp at hm
    · simp at hm
    · simp at hm
    · rcases List.mem_cons.mp hm with hm | hm
      · cases hm
      rcases List.mem_cons.mp hm with hm | hm
      · cases hm
      obtain ⟨f, hf, hne, hrun⟩ := delPhase_force_prompt env' opt' final' a hm
      refine ⟨final', f, ?_, hf, hne⟩
      rw [htr']
      refine List.mem_append_right _ (List.mem_append_right _ (List.mem_append_right _ ?_))
      exact List.mem_cons_of_mem _ (List.mem_cons_of_mem _ hrun)

/-- Witness for C4 at concrete runs: in `envRetryYes` the safe pass fails on
`feat1`, the offer is shown and the forced engine pass runs on exactly
`[feat1]`; in `envRetryNo` the user declines and the run exits 0 with no
forced deletion subprocess. -/
theorem c4_force_retry_offer_witness :
    Ev.promptForce (some "yes") ∈ (mainRun envRetryYes).1 ∧
    Ev.runEngine ["feat1"] true ∈ (mainRun envRetryYes).1 ∧
    ((mainRun envRetryNo).2 = 0 ∧
     (∀ (b : String) (r : Option String), Ev.execDel b true r ∉ (mainRun envRetryNo).1) ∧
     (∀ bs2, Ev.runEngine bs2 true ∉ (mainRun envRetryNo).1)) := by
  have hyes := c4_force_retry_offer envRetryYes [] (some "main")
    "* main 1a2b3c4 [origin/main] ok\n  feat1 abc123 [origin/feat1: gone] m\n" 1
    [Ev.queryCurrent (some "main")] ["feat1"] "y"
    rfl (by decide) rfl (by decide) rfl (Or.inl rfl) (by decide) (by decide)
    (by decide) rfl (by decide)
  have hno := c4_force_retry_offer envRetryNo [] (some "main")
    "* main 1a2b3c4 [origin/main] ok\n  feat1 abc123 [origin/feat1: gone] m\n" 1
    [Ev.queryCurrent (some "main")] ["feat1"] "y"
    rfl (by decide) rfl (by decide) rfl (Or.inl rfl) (by decide) (by decide)
    (by decide) rfl (by decide)
  refine ⟨?_, ?_, ?_⟩
  · have h := hyes.1 ["feat1"] (by decide) (by decide)
    simpa using h
  · exact hyes.2.2.1 ["feat1"] "yes" (by decide) (by decide) rfl (by decide)
  · exact hno.2.2.2.1 ["feat1"] "no" (by decide) (by decide) rfl (by decide)

/-- C6: the Pre-Cleanup Guard passes the candidate list through unchanged
when no default was resolved or when the current branch equals the default
(case-insensitively); choosing switch issues a checkout of the default and
leaves the list unchanged on success, while a checkout failure aborts the
whole run (exit 1) before any deletion subprocess; choosing stay removes the
current branch name by case-insensitive comparison, so the current branch is
never passed to the Deletion Engine. -/
theorem c6_guard (g : GuardEnv) (bs : List String) (d c a : String) :
    (preCleanupCheck g bs none = ([], some bs)) ∧
    (g.cur = some c → jsToLower c = jsToLower d →
       preCleanupCheck g bs (some d) = ([Ev.queryCurrent (some c)], some bs)) ∧
    (g.cur = some c → jsToLower c ≠ jsToLower d → g.switchAns = some a →
       isYes a = true → g.checkoutRes = none →
       preCleanupCheck g bs (some d) =
         ([Ev.queryCurrent (some c), Ev.promptSwitch (some a), Ev.checkout d none],
          some bs)) ∧
    (g.cur = some c → jsToLower c ≠ jsToLower d → g.switchAns = some a →
       isYes a = true → ∀ e, g.checkoutRes = some e →
       (preCleanupCheck g bs (some d)).2 = none) ∧
    (g.cur = some c → jsToLower c ≠ jsToLower d → g.switchAns = some a →
       isYes a = false →
       preCleanupCheck g bs (some d) =
         ([Ev.queryCurrent (some c), Ev.promptSwitch (some a)],
          some (bs.filter (fun b => !(jsToLower b == jsToLower c)))) ∧
       (∀ x ∈ bs.filter (fun b => !(jsToLower b == jsToLower c)),
          jsToLower x ≠ jsToLower c) ∧
       c ∉ bs.filter (fun b => !(jsToLower b == jsToLower c))) ∧
    (∀ (env : MainEnv) (rt gt : List Ev) (dfl : Option String) (out : String)
       (opt : Nat),
       env.isRepo = true →
       getDefaultMainBranch env.mainRes env.masterRes env.defaultChoice =
         (rt, some dfl) →
       env.listOut = some out → getDetachedBranches out ≠ [] →
       env.optionAns = some opt → opt ≠ 4 →
       (opt = 3 && dfl.isSome &&
         (optFilter opt dfl (getDetachedBranches out)).isEmpty) = false →
       preCleanupCheck env.guard (optFilter opt dfl (getDetachedBranches out)) dfl
         = (gt, none) →
       (mainRun env).2 = 1 ∧
       ∀ (b : String) (f : Bool) (r : Option String),
         Ev.execDel b f r ∉ (mainRun env).1) := by
  refine ⟨by simp [preCleanupCheck], ?_, ?_, ?_, ?_, ?_⟩
  · intro hc hlow
    have hb : (jsToLower c == jsToLower d) = true := by simp [hlow]
    simp [preCleanupCheck, hc, hb]
  · intro hc hlow hans hy hco
    have hb : (jsToLower c == jsToLower d) = false := by simp [hlow]
    simp [preCleanupCheck, hc, hb, hans, hy, hco]
  · intro hc hlow hans hy e hco
    have hb : (jsToLower c == jsToLower d) = false := by simp [hlow]
    simp [preCleanupCheck, hc, hb, hans, hy, hco]
  · intro hc hlow hans hy
    have hb : (jsToLower c == jsToLower d) = false := by simp [hlow]
    refine ⟨by simp [preCleanupCheck, hc, hb, hans, hy], ?_, ?_⟩
    · intro x hx
      have := (List.mem_filter.mp hx).2
      simp at this
      exact this
    · intro hmem
      have := (List.mem_filter.mp hmem).2
      simp at this
  · intro env rt gt dfl out opt hr h2 h3 h4 h5 h6 h7 h8
    have hmain := mainRun_reach env rt dfl out opt hr h2 h3 h4 h5 h6
    have hwo := mainWithOption_reach_err env dfl (getDetachedBranches out) opt gt h7 h8
    have hrt := getDefaultMainBranch_shape env.mainRes env.masterRes env.defaultChoice
    rw [h2] at hrt
    have hrtP : ∀ e ∈ rt, isPromptDefaultEv e = true := by
      rcases hrt with rfl | ⟨a', rfl⟩ <;> simp [isPromptDefaultEv]
    have hgtP : ∀ e ∈ gt, guardEv e = true := by
      have h := preCleanupCheck_events env.guard
        (optFilter opt dfl (getDetachedBranches out)) dfl
      rw [h8] at h
      exact h
    constructor
    · rw [hmain]
      simp [hwo]
    · intro b f r hmem
      rw [hmain] at hmem
      simp only [hwo] at hmem
      rcases List.mem_append.mp hmem with hm | hm
      · exact absurd hm (notMem_of_pred hrtP rfl)
      rcases List.mem_cons.mp hm with hm | hm
      · cases hm
      rcases List.mem_cons.mp hm with hm | hm
      · cases hm
      rcases List.mem_cons.mp hm with hm | hm
      · cases hm
      · exact absurd hm (notMem_of_pred hgtP rfl)

/-- Witness for C6 at concrete inputs: staying on `beta` removes it from the
plan `[alpha, beta]` (spec Scenario C), and in `envCheckoutFail` the failed
checkout aborts the run with exit 1 and no deletion subprocess. -/
theorem c6_guard_witness :
    (preCleanupCheck guardStayW ["alpha", "beta"] (some "main")).2 =
      some (["alpha", "beta"].filter (fun b => !(jsToLower b == jsToLower "beta"))) ∧
    ("beta" : String) ∉
      (["alpha", "beta"].filter (fun b => !(jsToLower b == jsToLower "beta"))) ∧
    ((mainRun envCheckoutFail).2 = 1 ∧
     ∀ (b : String) (f : Bool) (r : Option String),
       Ev.execDel b f r ∉ (mainRun envCheckoutFail).1) := by
  have h5 := (c6_guard guardStayW ["alpha", "beta"] "main" "beta" "no").2.2.2.2.1
    rfl (by decide) rfl (by decide)
  refine ⟨by rw [h5.1], h5.2.2, ?_⟩
  exact (c6_guard guardStayW [] "x" "x" "x").2.2.2.2.2 envCheckoutFail []
    [Ev.queryCurrent (some "dev"), Ev.promptSwitch (some "yes"),
     Ev.checkout "main" (some "error: pathspec")]
    (some "main") "* main 1a2b3c4 [origin/main] ok\n  feat1 abc123 [origin/feat1: gone] m\n"
    1 rfl (by decide) rfl (by decide) rfl (by decide) (by decide) (by decide)

theorem midEv_not_default {e : Ev} (h : midEv e = true) :
    isPromptDefaultEv e = false := by
  cases e <;> simp_all [midEv, isPromptDefaultEv]

theorem guardEv_not_default {e : Ev} (h : guardEv e = true) :
    isPromptDefaultEv e = false := by
  cases e <;> simp_all [guardEv, isPromptDefaultEv]

theorem delPhaseEv_not_default {e : Ev} (h : delPhaseEv e = true) :
    isPromptDefaultEv e = false := by
  cases e <;> simp_all [delPhaseEv, isPromptDefaultEv]

theorem countP_zero_of_pred {p q : Ev → Bool} {t : List Ev}
    (h : ∀ e ∈ t, p e = true) (hpq : ∀ e, p e = true → q e = false) :
    t.countP q = 0 := by
  rw [List.countP_eq_zero]
  intro a ha
  simp [hpq a (h a ha)]

/-- C7: the Default Branch Resolver checks existence of the two protected
names by direct per-name existence queries, treating a failed existence
check as does-not-exist rather than propagating an error; it resolves to the
user's (lowercased, pattern-constrained) choice when both `main` and `master`
exist, to the single existing name when exactly one exists, and to none when
neither exists; and in every run the disambiguation prompt is issued at most
once. -/
theorem c7_default_resolver (mainRes masterRes choice : Option String) (s : String) :
    branchExists none = false ∧
    (branchExists mainRes = true → branchExists masterRes = true →
       getDefaultMainBranch mainRes masterRes (some s) =
         ([Ev.promptDefault (some s)], some (some (jsToLower s)))) ∧
    (branchExists mainRes = true → branchExists masterRes = false →
       getDefaultMainBranch mainRes masterRes choice = ([], some (some "main"))) ∧
    (branchExists mainRes = false → branchExists masterRes = true →
       getDefaultMainBranch mainRes masterRes choice = ([], some (some "master"))) ∧
    (branchExists mainRes = false → branchExists masterRes = false →
       getDefaultMainBranch mainRes masterRes choice = ([], some none)) ∧
    (∀ env : MainEnv, (mainRun env).1.countP isPromptDefaultEv ≤ 1) := by
  refine ⟨rfl, ?_, ?_, ?_, ?_, ?_⟩
  · intro hm hms
    simp [getDefaultMainBranch, hm, hms]
  · intro hm hms
    simp [getDefaultMainBranch, hm, hms]
  · intro hm hms
    simp [getDefaultMainBranch, hm, hms]
  · intro hm hms
    simp [getDefaultMainBranch, hm, hms]
  · intro env
    obtain ⟨rt, mid, gt, post, code, heq, hrt, hmid, hgt, hpost⟩ := mainRun_split env
    have htr : (mainRun env).1 = rt ++ (mid ++ (gt ++ post)) := by rw [heq]
    rw [htr]
    simp only [List.countP_append]
    have hmid0 : mid.countP isPromptDefaultEv = 0 :=
      countP_zero_of_pred hmid (fun e he => midEv_not_default he)
    have hgt0 : gt.countP isPromptDefaultEv = 0 :=
      countP_zero_of_pred hgt (fun e he => guardEv_not_default he)
    have hrt1 : rt.countP isPromptDefaultEv ≤ 1 := by
      rcases hrt with rfl | ⟨a, rfl⟩ <;> simp [List.countP_cons, isPromptDefaultEv]
    have hpost0 : post.countP isPromptDefaultEv = 0 := by
      rcases hpost with rfl | ⟨rfl, _⟩ | ⟨_, rfl, _⟩ | ⟨ca, _, _, rfl, _⟩ |
        ⟨ca, opt, final, _, _, _, rfl, _⟩
      · simp
      · simp [List.countP_cons, isPromptDefaultEv]
      · simp [List.countP_cons, isPromptDefaultEv]
      · simp [List.countP_cons, isPromptDefaultEv]
      · have hdp : (delPhase env opt final).1.countP isPromptDefaultEv = 0 :=
          countP_zero_of_pred (delPhase_events env opt final)
            (fun e he => delPhaseEv_not_default he)
        simp [List.countP_cons, isPromptDefaultEv, hdp]
    omega

/-- Witness for C7 at concrete existence-query results: with both names
present the user's answer `MASTER` resolves (lowercased) to `master`, and
with a failed `main` existence check but `master` present the resolver
returns `master` without error. -/
theorem c7_default_resolver_witness :
    getDefaultMainBranch (some "  main\n") (some "  master\n") (some "MASTER") =
      ([Ev.promptDefault (some "MASTER")], some (some "master")) ∧
    getDefaultMainBranch none (some "  master\n") none = ([], some (some "master")) := by
  constructor
  · have h := (c7_default_resolver (some "  main\n") (some "  master\n")
      (some "MASTER") "MASTER").2.1 (by decide) (by decide)
    simpa using h
  · exact (c7_default_resolver none (some "  master\n") none "x").2.2.2.1 rfl (by decide)

/-- Counterexample to C8 as stated: in a concrete zero-stale run with both
protected names present, an interactive prompt (the default-branch
disambiguation) IS issued, and it precedes the listing step — the code
resolves the default branch before listing, not after. -/
theorem c8_zero_stale_cex :
    getDetachedBranches "" = [] ∧
    envBothZero.listOut = some "" ∧
    (mainRun envBothZero).2 = 0 ∧
    Ev.promptDefault (some "main") ∈ (mainRun envBothZero).1 ∧
    isPromptEv (Ev.promptDefault (some "main")) = true ∧
    (mainRun envBothZero).1 =
      [Ev.promptDefault (some "main"), Ev.resolveDone (some "main"), Ev.listDone [],
       Ev.info msgNoStale] := by
  refine ⟨by decide, rfl, by decide, by decide, rfl, by decide⟩

/-- C8 (amended): in every run in which zero stale branches are found, the
process exits 0 right after a single informational message; the only
interactive prompt such a run can issue is the default-branch disambiguation
prompt; and default-branch resolution (RESOLVE_DEFAULT) precedes the listing
step (LIST) in the control flow. -/
theorem c8_zero_stale_exit (env : MainEnv) (rt : List Ev) (dfl : Option String)
    (out : String)
    (h1 : env.isRepo = true)
    (h2 : getDefaultMainBranch env.mainRes env.masterRes env.defaultChoice =
      (rt, some dfl))
    (h3 : env.listOut = some out)
    (h4 : getDetachedBranches out = []) :
    mainRun env = (rt ++ [Ev.resolveDone dfl, Ev.listDone [], Ev.info msgNoStale], 0) ∧
    (rt = [] ∨ ∃ a, rt = [Ev.promptDefault a]) ∧
    (∀ e ∈ (mainRun env).1, isPromptEv e = true → isPromptDefaultEv e = true) := by
  have hbs : (getDetachedBranches out).isEmpty = true := by simp [h4]
  have hrt := getDefaultMainBranch_shape env.mainRes env.masterRes env.defaultChoice
  rw [h2] at hrt
  have heq : mainRun env =
      (rt ++ [Ev.resolveDone dfl, Ev.listDone [], Ev.info msgNoStale], 0) := by
    simp [mainRun, h1, h2, h3, hbs, h4]
  refine ⟨heq, hrt, ?_⟩
  intro e he hp
  have he' : e ∈ rt ++ [Ev.resolveDone dfl, Ev.listDone [], Ev.info msgNoStale] := by
    have := he
    rw [heq] at this
    exact this
  rcases List.mem_append.mp he' with hm | hm
  · rcases hrt with rfl | ⟨a, rfl⟩
    · simp at hm
    · rcases List.mem_singleton.mp hm with rfl
      rfl
  · rcases List.mem_cons.mp hm with rfl | hm
    · cases hp
    rcases List.mem_cons.mp hm with rfl | hm
    · cases hp
    rcases List.mem_singleton.mp hm with rfl
    cases hp

/-- Witness for C8 (amended) at a concrete run with a single protected name:
the run resolves, lists nothing, prints one message and exits 0 with no
prompt at all. -/
theorem c8_zero_stale_exit_witness :
    mainRun envOneZero =
      ([Ev.resolveDone (some "main"), Ev.listDone [], Ev.info msgNoStale], 0) := by
  have h := (c8_zero_stale_exit envOneZero [] (some "main") ""
    rfl (by decide) rfl (by decide)).1
  simpa using h

/-- C10: if the target branch list becomes empty — after option 3's filtering
of the resolved default name, or after the Guard's adjustment — the run
prints an informational message and exits with status 0 before the disclaimer
is shown and before any deletion subprocess is issued. -/
theorem c10_empty_plan_early_exit (env : MainEnv) (rt : List Ev) (d : String)
    (out : String) (opt : Nat)
    (h1 : env.isRepo = true)
    (h3 : env.listOut = some out)
    (h4 : getDetachedBranches out ≠ []) :
    (getDefaultMainBranch env.mainRes env.masterRes env.defaultChoice =
       (rt, some (some d)) →
     env.optionAns = some 3 →
     (getDetachedBranches out).filter (fun b => !(jsToLower b == jsToLower d)) = [] →
     mainRun env =
       (rt ++ [Ev.resolveDone (some d), Ev.listDone (getDetachedBranches out),
          Ev.promptOption (some 3), Ev.info (msgNoneAfterFilter d)], 0) ∧
     Ev.disclaimerShown ∉ (mainRun env).1 ∧
     (∀ (b : String) (f : Bool) (r : Option String),
        Ev.execDel b f r ∉ (mainRun env).1)) ∧
    (∀ (dfl : Option String) (gt : List Ev),
     getDefaultMainBranch env.mainRes env.masterRes env.defaultChoice =
       (rt, some dfl) →
     env.optionAns = some opt → opt ≠ 4 →
     (opt = 3 && dfl.isSome &&
       (optFilter opt dfl (getDetachedBranches out)).isEmpty) = false →
     preCleanupCheck env.guard (optFilter opt dfl (getDetachedBranches out)) dfl
       = (gt, some []) →
     (mainRun env).2 = 0 ∧ Ev.info msgNoneAfterGuard ∈ (mainRun env).1 ∧
     Ev.disclaimerShown ∉ (mainRun env).1 ∧
     (∀ (b : String) (f : Bool) (r : Option String),
        Ev.execDel b f r ∉ (mainRun env).1)) := by
  constructor
  · intro h2 h5 hfil
    have hmain := mainRun_reach env rt (some d) out 3 h1 h2 h3 h4 h5 (by decide)
    have hflt : optFilter 3 (some d) (getDetachedBranches out) =
        (getDetachedBranches out).filter (fun b => !(jsToLower b == jsToLower d)) := by
      simp [optFilter]
    have hwo : mainWithOption env (some d) (getDetachedBranches out) 3 =
        ([Ev.info (msgNoneAfterFilter d)], 0) := by
      simp [mainWithOption, hflt, hfil]
    have hrt := getDefaultMainBranch_shape env.mainRes env.masterRes env.defaultChoice
    rw [h2] at hrt
    have hrtP : ∀ e ∈ rt, isPromptDefaultEv e = true := by
      rcases hrt with rfl | ⟨a, rfl⟩ <;> simp [isPromptDefaultEv]
    have heq : mainRun env =
        (rt ++ [Ev.resolveDone (some d), Ev.listDone (getDetachedBranches out),
           Ev.promptOption (some 3), Ev.info (msgNoneAfterFilter d)], 0) := by
      rw [hmain, hwo]
      try simp
    refine ⟨heq, ?_, ?_⟩
    · intro hmem
      rw [heq] at hmem
      rcases List.mem_append.mp hmem with hm | hm
      · exact absurd hm (notMem_of_pred hrtP rfl)
      · simp at hm
    · intro b f r hmem
      rw [heq] at hmem
      rcases List.mem_append.mp hmem with hm | hm
      · exact absurd hm (notMem_of_pred hrtP rfl)
      · simp at hm
  · intro dfl gt h2 h5 h6 h7 h8
    have hmain := mainRun_reach env rt dfl out opt h1 h2 h3 h4 h5 h6
    have hwo := mainWithOption_reach_ok env dfl (getDetachedBranches out) opt gt [] h7 h8
    have hag : mainAfterGuard env opt [] = ([Ev.info msgNoneAfterGuard], 0) := by
      simp [mainAfterGuard]
    have hrt := getDefaultMainBranch_shape env.mainRes env.masterRes env.defaultChoice
    rw [h2] at hrt
    have hrtP : ∀ e ∈ rt, isPromptDefaultEv e = true := by
      rcases hrt with rfl | ⟨a, rfl⟩ <;> simp [isPromptDefaultEv]
    have hgtP : ∀ e ∈ gt, guardEv e = true := by
      have h := preCleanupCheck_events env.guard
        (optFilter opt dfl (getDetachedBranches out)) dfl
      rw [h8] at h
      exact h
    have heq : mainRun env =
        (rt ++ Ev.resolveDone dfl :: Ev.listDone (getDetachedBranches out) ::
           Ev.promptOption (some opt) :: (gt ++ [Ev.info msgNoneAfterGuard]), 0) := by
      rw [hmain, hwo, hag]
      try simp
    refine ⟨by rw [heq], ?_, ?_, ?_⟩
    · rw [heq]
      simp
    · intro hmem
      rw [heq] at hmem
      rcases List.mem_append.mp hmem with hm | hm
      · exact absurd hm (notMem_of_pred hrtP rfl)
      rcases List.mem_cons.mp hm with hm | hm
      · cases hm
      rcases List.mem_cons.mp hm with hm | hm
      · cases hm
      rcases List.mem_cons.mp hm with hm | hm
      · cases hm
      rcases List.mem_append.mp hm with hm | hm
      · exact absurd hm (notMem_of_pred hgtP rfl)
      · cases List.mem_singleton.mp hm
    · intro b f r hmem
      rw [heq] at hmem
      rcases List.mem_append.mp hmem with hm | hm
      · exact absurd hm (notMem_of_pred hrtP rfl)
      rcases List.mem_cons.mp hm with hm | hm
      · cases hm
      rcases List.mem_cons.mp hm with hm | hm
      · cases hm
      rcases List.mem_cons.mp hm with hm | hm
      · cases hm
      rcases List.mem_append.mp hm with hm | hm
      · exact absurd hm (notMem_of_pred hgtP rfl)
      · cases List.mem_singleton.mp hm

/-- Witness for C10: in `envFilterEmpty` option 3 filters the only stale
branch (the default itself) away and the run exits 0 with an informational
message and no disclaimer; in `envGuardEmpty` staying on the only candidate
branch empties the plan after the guard, with the same outcome. -/
theorem c10_empty_plan_early_exit_witness :
    ((mainRun envFilterEmpty).2 = 0 ∧
     Ev.disclaimerShown ∉ (mainRun envFilterEmpty).1) ∧
    ((mainRun envGuardEmpty).2 = 0 ∧
     Ev.info msgNoneAfterGuard ∈ (mainRun envGuardEmpty).1 ∧
     Ev.disclaimerShown ∉ (mainRun envGuardEmpty).1) := by
  have h1 := (c10_empty_plan_early_exit envFilterEmpty [] "main"
    "* main abc123 [origin/main: gone] m\n" 3 rfl rfl (by decide)).1
    (by decide) rfl (by decide)
  have h2 := (c10_empty_plan_early_exit envGuardEmpty [] "x"
    "* main 1a2b3c4 [origin/main] ok\n  feat1 abc123 [origin/feat1: gone] m\n" 1
    rfl rfl (by decide)).2 (some "main")
    [Ev.queryCurrent (some "feat1"), Ev.promptSwitch (some "no")]
    (by decide) rfl (by decide) (by decide) (by decide)
  exact ⟨⟨by rw [h1.1], h1.2.1⟩, ⟨h2.1, h2.2.1, h2.2.2.1⟩⟩

end GitBranchCleanup
